import Mathlib

/-!
Verification development for the multi-worker prefetching data loader
(`dataloader.py`: `_DataLoaderIter`, `_MSDataLoaderIter`, `_ms_loop`,
`MSDataLoader`).

The loader is embedded shallowly:

* The consumer-side iterator state (`sample_iter`, `send_idx`, `rcvd_idx`,
  `batches_outstanding`, `worker_queue_idx`, `reorder_dict`, `shutdown`) is a
  record `PLState`; the operations `_put_indices`, `__next__`,
  `_process_next_batch` and the per-item body of `_ms_loop` are functions on
  it, translated line by line from the source.
* Worker concurrency is modelled by its observable effect on the consumer:
  every dispatched work item `(send_idx, indices)` eventually yields exactly
  one `(idx, result)` pair on the shared result queue, where `result` is the
  deterministic `_ms_loop` processing of that item; the order in which those
  pairs arrive at `data_queue.get()` is arbitrary and is supplied by a
  schedule oracle `sched : Nat → Nat` picking which in-flight item arrives
  next.  Quantifying over all schedules quantifies over all arrival orders.
* The random per-batch scale choice (`random.randrange(0, len(scale))`) is an
  oracle `scaleChoice`, and the fetch/collate collaborator
  (`collate_fn([dataset[i] for i in batch_indices])` at the scale selected by
  `dataset.set_scale`) is an opaque function that may fail with a Python
  exception, modelled as `Except PyExc`.
* Python `assert` statements are modelled by a sticky `assertFailed` flag on
  the state; the theorems show the flag never gets set on reachable states.
* `_shutdown_workers`, `_try_get_batch` and `_get_batch` touch external
  channel/process primitives, so they are modelled as trace/outcome functions:
  shutdown emits the list of channel/join/registry actions it performs, and
  the blocking receive takes the underlying `queue.get` outcome as input.
-/

namespace DataLoader

/-- Python exception value as observed by the loader: the classification
(exception type name) and the message. -/
structure PyExc where
  excType : String
  excMsg : String
  deriving DecidableEq, Repr

/-- Result value placed on the shared result queue by a worker: either the
collated samples (a Python list) or an `ExceptionWrapper`.  `ExceptionWrapper`
is external torch code; modelled from the spec: it captures the original
error's classification and message. -/
inductive MSResult (PyV : Type) where
  | data (samples : List PyV)
  | excWrapper (excType : String) (excMsg : String)
  deriving DecidableEq, Repr

/-- Environment of external collaborators and configuration for one pipeline
run: the fetch/collate collaborator (`collate_fn([dataset[i] for i in ixs])`
evaluated with the dataset set to a given scale index, which may raise), the
embedding of a Python int into the sample-list element type (used by
`samples.append(idx_scale)`), the length of `loader.scale`, the dataset's
`train` flag, the oracle for `random.randrange(0, len(scale))`, and
`num_workers`. -/
structure MSEnv (PyV : Type) where
  fetchCollate : Nat → List Nat → Except PyExc (List PyV)
  pyInt : Nat → PyV
  scaleLen : Nat
  train : Bool
  scaleChoice : Nat → Nat
  numWorkers : Nat

/-- Scale index selected by `_ms_loop` for the work item with sequence number
`idx`: `random.randrange(0, len(scale))` when `len(scale) > 1 and
dataset.train`, else the initial value `0` (and then `dataset.set_scale` is
not called, leaving the dataset at its default scale `0`). -/
def idxScaleFor {PyV : Type} (env : MSEnv PyV) (idx : Nat) : Nat :=
  if 1 < env.scaleLen ∧ env.train = true then env.scaleChoice idx else 0

/-- Body of the `_ms_loop` try/except for one work item `(idx, batch_indices)`:
select the scale, fetch and collate, append the scale index on success, or
wrap the raised exception on failure.  The produced `Result` is tagged with
the same sequence number by the caller. -/
def msProcessItem {PyV : Type} (env : MSEnv PyV) (idx : Nat) (batchIndices : List Nat) :
    MSResult PyV :=
  match env.fetchCollate (idxScaleFor env idx) batchIndices with
  | Except.error e => MSResult.excWrapper e.excType e.excMsg
  | Except.ok samples => MSResult.data (samples ++ [env.pyInt (idxScaleFor env idx)])

/-- Whole `_ms_loop` worker loop over the contents of one index queue
(`none` is the `None` sentinel): process items in order until the sentinel,
never letting an exception terminate the loop. -/
def msLoop {PyV : Type} (env : MSEnv PyV) : List (Option (Nat × List Nat)) → List (Nat × MSResult PyV)
  | [] => []
  | none :: _ => []
  | some (idx, batchIndices) :: rest =>
      (idx, msProcessItem env idx batchIndices) :: msLoop env rest

/-- Consumer-side iterator state of `_MSDataLoaderIter` (the fields set in
`__init__` for `num_workers > 0`).  `pending` is the unconsumed remainder of
`sample_iter`; `outstanding` is the multiset of dispatched work items whose
results the consumer has not yet taken off the result queue (the items whose
count is `batches_outstanding`); `drawCount` counts receives (feeding the
schedule oracle); `assertFailed` is the sticky model of Python `assert`
failure; `maxSeen` instruments the largest value `batches_outstanding` ever
reached. -/
structure PLState (PyV : Type) where
  pending : List (List Nat)
  sendIdx : Nat
  rcvdIdx : Nat
  batchesOutstanding : Nat
  workerQueueIdx : Nat
  reorderDict : List (Nat × MSResult PyV)
  outstanding : List (Nat × List Nat)
  shutdown : Bool
  assertFailed : Bool
  maxSeen : Nat
  drawCount : Nat
  deriving DecidableEq, Repr

/-- Lookup in the reorder dictionary (`idx in self.reorder_dict` /
`self.reorder_dict[idx]`). -/
def dictGet {α : Type} (k : Nat) : List (Nat × α) → Option α
  | [] => none
  | (k2, v) :: rest => if k2 = k then some v else dictGet k rest

/-- Removal from the reorder dictionary (`self.reorder_dict.pop(idx)`). -/
def dictErase {α : Type} (k : Nat) : List (Nat × α) → List (Nat × α)
  | [] => []
  | (k2, v) :: rest => if k2 = k then rest else (k2, v) :: dictErase k rest

/-- Fresh iterator state before priming: `sample_iter` freshly created from
the batch sampler, all counters zero, all buffers empty. -/
def initState {PyV : Type} (source : List (List Nat)) : PLState PyV :=
  { pending := source
    sendIdx := 0
    rcvdIdx := 0
    batchesOutstanding := 0
    workerQueueIdx := 0
    reorderDict := []
    outstanding := []
    shutdown := false
    assertFailed := false
    maxSeen := 0
    drawCount := 0 }

/-- `_put_indices`: assert the window has room, pull the next index batch from
`sample_iter` (no-op when exhausted), send `(send_idx, indices)` to the
round-robin worker input queue, advance the round-robin cursor, and bump
`batches_outstanding` and `send_idx`. -/
def putIndices {PyV : Type} (env : MSEnv PyV) (s : PLState PyV) : PLState PyV :=
  let s := if s.batchesOutstanding < 2 * env.numWorkers then s else { s with assertFailed := true }
  match s.pending with
  | [] => s
  | indices :: rest =>
      { s with
        pending := rest
        outstanding := s.outstanding ++ [(s.sendIdx, indices)]
        workerQueueIdx := (s.workerQueueIdx + 1) % env.numWorkers
        batchesOutstanding := s.batchesOutstanding + 1
        maxSeen := max s.maxSeen (s.batchesOutstanding + 1)
        sendIdx := s.sendIdx + 1 }

/-- Initial state after `__init__` has primed the prefetch loop: `2 *
num_workers` calls of `_put_indices`. -/
def primed {PyV : Type} (env : MSEnv PyV) (source : List (List Nat)) : PLState PyV :=
  (putIndices env)^[2 * env.numWorkers] (initState source)

/-- Outcome of one `__next__` call: a returned batch, a raised `StopIteration`,
a raised Python exception, or blocking forever on an empty result queue. -/
inductive NextOut (PyV : Type) where
  | batch (samples : List PyV)
  | stopIter
  | raised (e : PyExc)
  | hung
  deriving DecidableEq, Repr

/-- Exception actually raised by `_process_next_batch` for a failure result:
verbatim re-raise `batch.exc_type(batch.exc_msg)`, except the workaround for
multiline `KeyError` messages, which raises a plain `Exception` whose message
is `"KeyError:"` prepended to the original message. -/
def wrapExc (ty msg : String) : PyExc :=
  if ty = "KeyError" ∧ msg.data.contains '\n' then
    { excType := "Exception", excMsg := "KeyError:" ++ msg }
  else
    { excType := ty, excMsg := msg }

/-- `_process_next_batch`: advance `rcvd_idx`, refill the window with
`_put_indices`, then return the batch or raise the wrapped exception. -/
def processNextBatch {PyV : Type} (env : MSEnv PyV) (s : PLState PyV) (batch : MSResult PyV) :
    PLState PyV × NextOut PyV :=
  let s := { s with rcvdIdx := s.rcvdIdx + 1 }
  let s := putIndices env s
  match batch with
  | MSResult.excWrapper ty msg => (s, NextOut.raised (wrapExc ty msg))
  | MSResult.data samples => (s, NextOut.batch samples)

/-- The `while True` receive loop of `__next__`: assert the pipeline is live,
take the next `(idx, batch)` pair off the result queue (the schedule oracle
picks which in-flight item arrives), decrement `batches_outstanding`, store
out-of-order results in `reorder_dict` and retry, deliver on a match.  Fuel
bounds the iterations; on an empty in-flight set the real call blocks
forever (`hung`). -/
def nextLoop {PyV : Type} (env : MSEnv PyV) (sched : Nat → Nat) :
    Nat → PLState PyV → PLState PyV × NextOut PyV
  | 0, s => (s, NextOut.hung)
  | fuel + 1, s =>
      let s1 := if s.shutdown = false ∧ 0 < s.batchesOutstanding then s
                else { s with assertFailed := true }
      if s1.outstanding = [] then (s1, NextOut.hung)
      else
        let pos := sched s1.drawCount % s1.outstanding.length
        let item := s1.outstanding.getD pos (0, [])
        let r := msProcessItem env item.1 item.2
        let s2 := { s1 with
                    outstanding := s1.outstanding.eraseIdx pos
                    batchesOutstanding := s1.batchesOutstanding - 1
                    drawCount := s1.drawCount + 1 }
        if item.1 = s2.rcvdIdx then processNextBatch env s2 r
        else nextLoop env sched fuel { s2 with reorderDict := s2.reorderDict ++ [(item.1, r)] }

/-- `__next__` for `num_workers > 0`: deliver from `reorder_dict` if the next
expected index already arrived; raise `StopIteration` (after
`_shutdown_workers`, whose channel actions are modelled separately) when
nothing is outstanding; otherwise run the receive loop. -/
def nextFn {PyV : Type} (env : MSEnv PyV) (sched : Nat → Nat) (s : PLState PyV) :
    PLState PyV × NextOut PyV :=
  match dictGet s.rcvdIdx s.reorderDict with
  | some batch =>
      processNextBatch env { s with reorderDict := dictErase s.rcvdIdx s.reorderDict } batch
  | none =>
      if s.batchesOutstanding = 0 then ({ s with shutdown := true }, NextOut.stopIter)
      else nextLoop env sched s.outstanding.length s

/-- How a consumer run ends: source exhausted (`StopIteration`), an exception
raised out of `next()`, a blocked receive, or insufficient fuel. -/
inductive RunEnd where
  | stopped
  | errored (e : PyExc)
  | hung
  | fuelOut
  deriving DecidableEq, Repr

/-- Consumer loop over the pipelined iterator: call `__next__` repeatedly,
collecting returned batches, until `StopIteration` or a raised exception
(after which the consumer requests nothing further). -/
def consumerRun {PyV : Type} (env : MSEnv PyV) (sched : Nat → Nat) :
    Nat → PLState PyV → List (List PyV) × RunEnd
  | 0, _ => ([], RunEnd.fuelOut)
  | fuel + 1, s =>
      match nextFn env sched s with
      | (s2, NextOut.batch b) =>
          let rest := consumerRun env sched fuel s2
          (b :: rest.1, rest.2)
      | (_, NextOut.stopIter) => ([], RunEnd.stopped)
      | (_, NextOut.raised e) => ([], RunEnd.errored e)
      | (_, NextOut.hung) => ([], RunEnd.hung)

/-- State after priming and `k` subsequent `__next__` calls. -/
def runState {PyV : Type} (env : MSEnv PyV) (sched : Nat → Nat) (source : List (List Nat))
    (k : Nat) : PLState PyV :=
  (fun s => (nextFn env sched s).1)^[k] (primed env source)

/-- Synchronous `__next__` path for `num_workers == 0` (`pin_memory` off),
iterated by the consumer: `indices = next(self.sample_iter)` (raising
`StopIteration` on exhaustion), then `collate_fn([dataset[i] for i in
indices])` with the dataset at its default scale, any exception propagating
to the caller unwrapped. -/
def syncRun {PyV : Type} (env : MSEnv PyV) : Nat → List (List Nat) → List (List PyV) × RunEnd
  | 0, _ => ([], RunEnd.fuelOut)
  | fuel + 1, pending =>
      match pending with
      | [] => ([], RunEnd.stopped)
      | indices :: rest =>
          match env.fetchCollate 0 indices with
          | Except.error e => ([], RunEnd.errored e)
          | Except.ok b =>
              let r := syncRun env fuel rest
              (b :: r.1, r.2)

/-- Index batch of the source at position `j` (defaulting off the end). -/
def batchAt (source : List (List Nat)) (j : Nat) : List Nat :=
  (source[j]?).getD []

/-- Result the worker pool produces for sequence number `j` of the given
source. -/
def resultAt {PyV : Type} (env : MSEnv PyV) (source : List (List Nat)) (j : Nat) : MSResult PyV :=
  msProcessItem env j (batchAt source j)

/-- Success test on a worker result. -/
def MSResult.isData {PyV : Type} : MSResult PyV → Bool
  | MSResult.data _ => true
  | MSResult.excWrapper _ _ => false

/-- Samples carried by a successful worker result. -/
def MSResult.payload {PyV : Type} : MSResult PyV → List PyV
  | MSResult.data samples => samples
  | MSResult.excWrapper _ _ => []

/-- Exception a failure result causes `_process_next_batch` to raise. -/
def wrapOf {PyV : Type} : MSResult PyV → PyExc
  | MSResult.data _ => { excType := "", excMsg := "" }
  | MSResult.excWrapper ty msg => wrapExc ty msg

/-- Observable outcome `__next__` produces when it delivers the worker result
`r`: the samples on success, the wrapped exception on failure. -/
def outcomeOf {PyV : Type} : MSResult PyV → NextOut PyV
  | MSResult.data samples => NextOut.batch samples
  | MSResult.excWrapper ty msg => NextOut.raised (wrapExc ty msg)

/-- Payload of a successful fetch/collate call (defaulting on failure). -/
def okD {PyV : Type} : Except PyExc (List PyV) → List PyV
  | Except.ok b => b
  | Except.error _ => []

/-! ### Shutdown coordinator (`_shutdown_workers`)

The body only calls external channel/process/registry primitives, so it is
embedded as a function that returns the updated guard state together with the
ordered trace of primitive actions it performs. -/

/-- Primitive actions `_shutdown_workers` can perform, in source order:
`done_event.set()`; the pin-memory (relay) teardown
(`worker_result_queue.cancel_join_thread()`, `worker_result_queue.put(None)`,
`pin_memory_thread.join()`, `worker_result_queue.close()`); per-worker
sentinel and close on each index queue; per-worker `join`; and
`_remove_worker_pids` (the worker-identity registry release). -/
inductive ShutAction where
  | setDoneEvent
  | cancelJoinResultQueue
  | putSentinelResultQueue
  | joinPinMemoryThread
  | closeResultQueue
  | putSentinelIndexQueue (w : Nat)
  | closeIndexQueue (w : Nat)
  | joinWorker (w : Nat)
  | removeWorkerPids
  deriving DecidableEq, Repr

/-- Configuration of the teardown: worker count and whether the pin-memory
relay thread exists (`hasattr(self, 'pin_memory_thread')`). -/
structure ShutCtx where
  numWorkers : Nat
  hasPinThread : Bool
  deriving DecidableEq, Repr

/-- Mutable guard state read and written by `_shutdown_workers`. -/
structure ShutState where
  shutdown : Bool
  workerPidsSet : Bool
  deriving DecidableEq, Repr

/-- Relay teardown actions (step 2 of the sequence), emitted only when the
pin-memory thread exists: sentinel and join strictly before closing the
shared result queue. -/
def relayTermination (hasPinThread : Bool) : List ShutAction :=
  if hasPinThread then
    [ShutAction.cancelJoinResultQueue, ShutAction.putSentinelResultQueue,
     ShutAction.joinPinMemoryThread, ShutAction.closeResultQueue]
  else []

/-- Sentinel-then-close on every worker's index queue (step 3). -/
def workerStops (numWorkers : Nat) : List ShutAction :=
  (List.range numWorkers).flatMap
    (fun w => [ShutAction.putSentinelIndexQueue w, ShutAction.closeIndexQueue w])

/-- Join of every worker (step 4). -/
def workerJoins (numWorkers : Nat) : List ShutAction :=
  (List.range numWorkers).map ShutAction.joinWorker

/-- `_shutdown_workers`: no-op while the interpreter is exiting
(`python_exit_status is True or python_exit_status is None`); no-op when the
guard flag is already set; otherwise set the guard, run the teardown body and
its `finally` block (registry release only if the pids were registered), in
source order. -/
def shutdownWorkers (pythonExitStatus : Option Bool) (ctx : ShutCtx) (st : ShutState) :
    ShutState × List ShutAction :=
  if pythonExitStatus = some true ∨ pythonExitStatus = none then (st, [])
  else if st.shutdown then (st, [])
  else
    ({ shutdown := true, workerPidsSet := false },
      [ShutAction.setDoneEvent]
        ++ relayTermination ctx.hasPinThread
        ++ workerStops ctx.numWorkers
        ++ workerJoins ctx.numWorkers
        ++ (if st.workerPidsSet then [ShutAction.removeWorkerPids] else []))

/-! ### Failure/timeout detector (`_try_get_batch`, `_get_batch`)

The underlying `self.data_queue.get(timeout=...)` is external, so its outcome
is an input: it returns a `(idx, batch)` pair, raises `queue.Empty` after
waiting the full timeout, or raises some other exception. -/

/-- Worker process as seen by the liveness check: its pid and whether
`is_alive()` holds. -/
structure WorkerProc where
  pid : Nat
  alive : Bool
  deriving DecidableEq, Repr

/-- Outcome of one underlying `queue.get(timeout=...)` call. -/
inductive QueueOutcome (β : Type) where
  | got (b : β)
  | empty
  | exc (e : PyExc)
  deriving DecidableEq, Repr

/-- Pids of the workers that are not alive, in pool order. -/
def deadPids (ws : List WorkerProc) : List Nat :=
  (ws.filter (fun w => w.alive = false)).map WorkerProc.pid

/-- Message of the worker-death error: names exactly the dead workers'
pids. -/
def workerDeathMsg (ws : List WorkerProc) : String :=
  "DataLoader worker (pid(s) " ++ String.intercalate ", " ((deadPids ws).map toString)
    ++ ") exited unexpectedly"

/-- `_try_get_batch`: on a successful receive return the data; on any
exception first check liveness of every worker and raise the worker-death
error if one died, then convert `queue.Empty` into `(False, None)` (here
`Option.none`), and re-raise anything else. -/
def tryGetBatch {β : Type} (ws : List WorkerProc) (outcome : QueueOutcome β) :
    Except PyExc (Option β) :=
  match outcome with
  | QueueOutcome.got b => Except.ok (some b)
  | QueueOutcome.empty =>
      if ws.all (fun w => w.alive) then Except.ok none
      else Except.error { excType := "RuntimeError", excMsg := workerDeathMsg ws }
  | QueueOutcome.exc e =>
      if ws.all (fun w => w.alive) then Except.error e
      else Except.error { excType := "RuntimeError", excMsg := workerDeathMsg ws }

/-- Message of the hard-timeout error raised by `_get_batch`. -/
def timeoutMsg (timeout : Nat) : String :=
  "DataLoader timed out after " ++ toString timeout ++ " seconds"

/-- `_get_batch` branch for `self.timeout > 0`: one `_try_get_batch` with the
configured timeout; return the data on success, raise the timeout error
naming the configured duration if the receive came back empty.  `getAt d` is
the outcome of `queue.get` when asked to wait up to `d`. -/
def getBatchTimeout {β : Type} (timeout : Nat) (ws : List WorkerProc)
    (getAt : Nat → QueueOutcome β) : Except PyExc β :=
  match tryGetBatch ws (getAt timeout) with
  | Except.ok (some d) => Except.ok d
  | Except.ok none => Except.error { excType := "RuntimeError", excMsg := timeoutMsg timeout }
  | Except.error e => Except.error e

/-- `_get_batch` branch for `timeout == 0` and no pin-memory thread:
`while True: try_get_batch()`, retrying every poll interval until a result
arrives or an error is raised.  `getSeq t` is the outcome of the `t`-th
underlying receive; `none` models an infinite retry loop within the given
fuel. -/
def getBatchLoop {β : Type} (ws : List WorkerProc) (getSeq : Nat → QueueOutcome β) :
    Nat → Nat → Option (Except PyExc β)
  | _, 0 => none
  | t, fuel + 1 =>
      match tryGetBatch ws (getSeq t) with
      | Except.ok (some d) => some (Except.ok d)
      | Except.ok none => getBatchLoop ws getSeq (t + 1) fuel
      | Except.error e => some (Except.error e)

/-! ### Reachability invariant of the consumer state -/

/-- Sequence numbers of a list of tagged items. -/
def seqs {α : Type} (l : List (Nat × α)) : List Nat :=
  l.map Prod.fst

/-- Items of a list tagged with consecutive indices starting at `i` (the shape
of the in-flight pool after dispatching a prefix of the source in order). -/
def tagFrom {α : Type} : Nat → List α → List (Nat × α)
  | _, [] => []
  | i, a :: l => (i, a) :: tagFrom (i + 1) l

/-- Invariant tying a reachable consumer state to the source sequence, for a
live (not yet stopped) pipeline:  dispatch happened in source order
(`pend`); the window `send_idx - rcvd_idx` is bounded by `2 * num_workers`
and only shrinks below the bound once the source is exhausted (`winEx`); the
sequence numbers in flight or parked in the reorder dictionary are exactly
the window interval (`perm`); every in-flight item carries its source batch
(`outOk`) and every parked result is the worker's result for its key
(`dictOk`); `batches_outstanding` counts exactly the in-flight items (`cnt`);
and no Python assert has failed (`af`), the instrumented peak never exceeded
the window (`ms`). -/
structure Inv {PyV : Type} (env : MSEnv PyV) (source : List (List Nat)) (s : PLState PyV) :
    Prop where
  pend : s.pending = source.drop s.sendIdx
  le1 : s.rcvdIdx ≤ s.sendIdx
  le2 : s.sendIdx ≤ source.length
  win : s.sendIdx - s.rcvdIdx ≤ 2 * env.numWorkers
  winEx : s.sendIdx - s.rcvdIdx < 2 * env.numWorkers → s.sendIdx = source.length
  perm : (seqs s.outstanding ++ seqs s.reorderDict).Perm
      (List.range' s.rcvdIdx (s.sendIdx - s.rcvdIdx))
  outOk : ∀ p ∈ s.outstanding, source[p.1]? = some p.2
  dictOk : ∀ p ∈ s.reorderDict, p.2 = resultAt env source p.1
  cnt : s.batchesOutstanding = s.outstanding.length
  sd : s.shutdown = false
  af : s.assertFailed = false
  ms : s.maxSeen ≤ 2 * env.numWorkers

/-- Terminal description of the state once `__next__` has raised
`StopIteration`: everything delivered, nothing buffered, guard flag set, no
assert failure, peak within the window. -/
structure DoneSt {PyV : Type} (env : MSEnv PyV) (source : List (List Nat)) (s : PLState PyV) :
    Prop where
  pend : s.pending = []
  eqIdx : s.rcvdIdx = s.sendIdx
  send : s.sendIdx = source.length
  outE : s.outstanding = []
  dictE : s.reorderDict = []
  cnt : s.batchesOutstanding = 0
  sd : s.shutdown = true
  af : s.assertFailed = false
  ms : s.maxSeen ≤ 2 * env.numWorkers

/-- Every state reachable at a `__next__` call boundary is either live with
the invariant or terminal. -/
def TopInv {PyV : Type} (env : MSEnv PyV) (source : List (List Nat)) (s : PLState PyV) : Prop :=
  Inv env source s ∨ DoneSt env source s

/-! ### Concrete instantiations used by witnesses and counterexamples -/

/-- Simple environment over `PyV := Nat`: the fetch/collate collaborator
returns the index batch itself, a single scale, eval mode, `n` workers. -/
def simpleEnv (n : Nat) : MSEnv Nat :=
  { fetchCollate := fun _ ixs => Except.ok ixs
    pyInt := fun v => v
    scaleLen := 1
    train := false
    scaleChoice := fun _ => 0
    numWorkers := n }

/-- Environment whose fetch/collate collaborator raises `e` exactly on index
batches whose first index is `t`, and otherwise returns the batch. -/
def failAtEnv (t : Nat) (e : PyExc) : MSEnv Nat :=
  { fetchCollate := fun _ ixs => if ixs.head? = some t then Except.error e else Except.ok ixs
    pyInt := fun v => v
    scaleLen := 1
    train := false
    scaleChoice := fun _ => 0
    numWorkers := 1 }

/-- Schedule oracle delivering results in dispatch order. -/
def fifoSched : Nat → Nat := fun _ => 0

/-- Schedule oracle delivering the second in-flight result first, then in
order: an out-of-order completion. -/
def swapSched : Nat → Nat := fun t => if t = 0 then 1 else 0

/-! ## Theorems -/

/-! ### List and dictionary helper lemmas -/

/-- Helper: a nonempty list is a permutation of its `pos`-th element consed
onto the list with that position erased. -/
theorem perm_getD_eraseIdx {α : Type} :
    ∀ (l : List α) (pos : Nat) (d : α), pos < l.length →
      l.Perm (l.getD pos d :: l.eraseIdx pos)
  | _ :: _, 0, _, _ => List.Perm.refl _
  | a :: t, pos + 1, d, h => by
    have ih := perm_getD_eraseIdx t pos d (Nat.lt_of_succ_lt_succ h)
    simp only [List.getD_cons_succ, List.eraseIdx]
    exact (ih.cons a).trans (List.Perm.swap _ _ _)

/-- Helper: sequence numbers of an appended pool. -/
theorem seqs_append {α : Type} (l1 l2 : List (Nat × α)) :
    seqs (l1 ++ l2) = seqs l1 ++ seqs l2 :=
  List.map_append _ _ _

/-- Helper: a pool and its sequence numbers have the same length. -/
theorem seqs_length {α : Type} (l : List (Nat × α)) : (seqs l).length = l.length :=
  List.length_map _ _

/-- Helper: a failed dictionary lookup means the key is absent. -/
theorem dictGet_none {α : Type} :
    ∀ (d : List (Nat × α)) (k : Nat), dictGet k d = none → k ∉ seqs d := by
  intro d
  induction d with
  | nil => intro k _; simp [seqs]
  | cons p rest ih =>
      intro k h
      by_cases hk : p.1 = k
      · exact absurd h (by simp [dictGet, hk])
      · have h2 : dictGet k rest = none := by simpa [dictGet, hk] using h
        have := ih k h2
        simp only [seqs, List.map_cons, List.mem_cons]
        rintro (h3 | h3)
        · exact hk h3.symm
        · exact this (by simpa [seqs] using h3)

/-- Helper: a successful dictionary lookup returns a stored entry. -/
theorem dictGet_mem {α : Type} :
    ∀ (d : List (Nat × α)) (k : Nat) (v : α), dictGet k d = some v → (k, v) ∈ d := by
  intro d
  induction d with
  | nil => intro k v h; simp [dictGet] at h
  | cons p rest ih =>
      intro k v h
      by_cases hk : p.1 = k
      · have hv : p.2 = v := by
          have h2 := h
          simp [dictGet, hk] at h2
          exact h2
        have hp : p = (k, v) := by
          rw [← hk, ← hv]
        rw [← hp]
        exact List.mem_cons_self p rest
      · right
        exact ih k v (by simpa [dictGet, hk] using h)

/-- Helper: erasing a key keeps only stored entries. -/
theorem dictErase_subset {α : Type} :
    ∀ (d : List (Nat × α)) (k : Nat) (p : Nat × α), p ∈ dictErase k d → p ∈ d := by
  intro d
  induction d with
  | nil => intro k p h; simp [dictErase] at h
  | cons q rest ih =>
      intro k p h
      by_cases hk : q.1 = k
      · simp only [dictErase, hk, if_pos] at h
        exact List.mem_cons_of_mem q h
      · simp only [dictErase, hk, if_neg, not_false_iff, List.mem_cons] at h
        rcases h with h | h
        · exact List.mem_cons.mpr (Or.inl h)
        · exact List.mem_cons_of_mem q (ih k p h)

/-- Helper: erasing a present key removes exactly one occurrence of it from
the key multiset. -/
theorem dictErase_perm {α : Type} :
    ∀ (d : List (Nat × α)) (k : Nat) (v : α), dictGet k d = some v →
      (seqs d).Perm (k :: seqs (dictErase k d)) := by
  intro d
  induction d with
  | nil => intro k v h; simp [dictGet] at h
  | cons q rest ih =>
      intro k v h
      by_cases hk : q.1 = k
      · simp only [dictErase, hk, if_pos]
        simp [seqs, hk]
      · have h2 : dictGet k rest = some v := by simpa [dictGet, hk] using h
        have := (ih k v h2).cons q.1
        simp only [dictErase, hk, if_neg, not_false_iff]
        simp only [seqs, List.map_cons] at this ⊢
        exact this.trans (List.Perm.swap _ _ _)

/-- Helper: length of a tagged prefix. -/
theorem tagFrom_length {α : Type} : ∀ (i : Nat) (l : List α), (tagFrom i l).length = l.length := by
  intro i l
  induction l generalizing i with
  | nil => simp [tagFrom]
  | cons a t ih => simp [tagFrom, ih]

/-- Helper: sequence numbers of a tagged prefix form the index interval. -/
theorem seqs_tagFrom {α : Type} : ∀ (i : Nat) (l : List α),
    seqs (tagFrom i l) = List.range' i l.length := by
  intro i l
  induction l generalizing i with
  | nil => simp [tagFrom, seqs]
  | cons a t ih =>
      simp only [tagFrom, seqs, List.map_cons, List.length_cons, List.range'_succ]
      have := ih (i + 1)
      simp only [seqs] at this
      rw [this]

/-- Helper: tagging a list extended by one element. -/
theorem tagFrom_snoc {α : Type} : ∀ (i : Nat) (l : List α) (a : α),
    tagFrom i (l ++ [a]) = tagFrom i l ++ [(i + l.length, a)] := by
  intro i l
  induction l generalizing i with
  | nil => simp [tagFrom]
  | cons b t ih =>
      intro a
      have harith : i + 1 + t.length = i + (t.length + 1) := by omega
      show tagFrom i (b :: (t ++ [a])) = (i, b) :: tagFrom (i + 1) t ++ [(i + (t.length + 1), a)]
      rw [tagFrom, ih (i + 1) a, harith]
      rfl

/-- Helper: a tagged-prefix entry holds the list element at its index. -/
theorem tagFrom_mem {α : Type} : ∀ (l : List α) (i : Nat) (p : Nat × α),
    p ∈ tagFrom i l → i ≤ p.1 ∧ l[p.1 - i]? = some p.2 := by
  intro l
  induction l with
  | nil => intro i p h; simp [tagFrom] at h
  | cons a t ih =>
      intro i p h
      simp only [tagFrom, List.mem_cons] at h
      rcases h with h | h
      · subst h
        simp
      · obtain ⟨h1, h2⟩ := ih (i + 1) p h
        refine ⟨by omega, ?_⟩
        have hd : p.1 - i = (p.1 - (i + 1)) + 1 := by omega
        rw [hd]
        simpa using h2

/-- Helper: one-step extension of an interval on the right. -/
theorem range'_snoc (s n : Nat) : List.range' s (n + 1) = List.range' s n ++ [s + n] := by
  rw [List.range'_concat]
  simp

/-! ### Priming -/

/-- Helper: closed form of the state after `k` priming `_put_indices` calls,
for any `k` within the window: the first `min k source.length` batches are
dispatched in order. -/
theorem putIndices_iterate {PyV : Type} (env : MSEnv PyV) (source : List (List Nat)) :
    ∀ k, k ≤ 2 * env.numWorkers →
      (putIndices env)^[k] (initState source) =
        { pending := source.drop k
          sendIdx := min k source.length
          rcvdIdx := 0
          batchesOutstanding := min k source.length
          workerQueueIdx := (min k source.length) % env.numWorkers
          reorderDict := []
          outstanding := tagFrom 0 (source.take k)
          shutdown := false
          assertFailed := false
          maxSeen := min k source.length
          drawCount := 0 } := by
  intro k
  induction k with
  | zero =>
      intro _
      rw [Function.iterate_zero_apply]
      simp [initState, tagFrom]
  | succ k ih =>
      intro hk
      have hk2 : k < 2 * env.numWorkers := by omega
      rw [Function.iterate_succ_apply', ih (by omega)]
      by_cases hlen : source.length ≤ k
      · have hd : source.drop k = [] := List.drop_eq_nil_iff.mpr hlen
        have hd1 : source.drop (k + 1) = [] := List.drop_eq_nil_iff.mpr (by omega)
        have hmin : min k source.length = source.length := by omega
        have hmin1 : min (k + 1) source.length = source.length := by omega
        have ht : source.take k = source := List.take_of_length_le hlen
        have ht1 : source.take (k + 1) = source := List.take_of_length_le (by omega)
        simp only [putIndices, hmin, hmin1, hd, hd1, ht, ht1]
        have hlt : source.length < 2 * env.numWorkers := by omega
        simp [hlt]
      · have hklen : k < source.length := by omega
        have hmin : min k source.length = k := by omega
        have hmin1 : min (k + 1) source.length = k + 1 := by omega
        have hd : source.drop k = source[k] :: source.drop (k + 1) :=
          List.drop_eq_getElem_cons hklen
        have hget : source[k]? = some source[k] := List.getElem?_eq_getElem hklen
        have ht1 : source.take (k + 1) = source.take k ++ [source[k]] := by
          rw [List.take_succ, hget]
          rfl
        have htl : (source.take k).length = k := by
          rw [List.length_take]
          omega
        simp only [putIndices, hmin, hmin1, hd, ht1, tagFrom_snoc, htl, hk2, if_pos]
        simp only [Nat.zero_add, Nat.mod_add_mod]
        have hmax : max k (k + 1) = k + 1 := by omega
        simp [hmax]

/-- Helper: the primed initial state satisfies the reachability invariant
when at least one worker exists. -/
theorem primed_inv {PyV : Type} (env : MSEnv PyV) (source : List (List Nat)) :
    Inv env source (primed env source) := by
  have h := putIndices_iterate env source (2 * env.numWorkers) (Nat.le_refl _)
  rw [primed, h]
  constructor
  case pend =>
      by_cases hlen : source.length ≤ 2 * env.numWorkers
      · have hmin : min (2 * env.numWorkers) source.length = source.length := by omega
        simp only [hmin]
        rw [List.drop_eq_nil_iff.mpr hlen, List.drop_length]
      · have hmin : min (2 * env.numWorkers) source.length = 2 * env.numWorkers := by omega
        simp only [hmin]
  case le1 => exact Nat.zero_le _
  case le2 => simp
  case win => simp
  case winEx => simp; omega
  case perm =>
      rw [seqs_tagFrom]
      simp only [List.length_take, seqs, List.map_nil, List.append_nil, Nat.sub_zero]
      exact List.Perm.refl _
  case outOk =>
      intro p hp
      have hm := tagFrom_mem _ _ _ hp
      rcases hm with ⟨_, hm2⟩
      simp only [Nat.sub_zero] at hm2
      rw [List.getElem?_take] at hm2
      by_cases hlt : p.1 < 2 * env.numWorkers
      · simpa [hlt] using hm2
      · simp [hlt] at hm2
  case dictOk => intro p hp; simp at hp
  case cnt => simp [tagFrom_length]
  case sd => rfl
  case af => rfl
  case ms => simp

/-! ### Preservation of the invariant by one delivery -/

/-- Helper: `_process_next_batch` on a state from which the expected-index
entry has just been removed restores the invariant, advances `rcvd_idx` by
one, and returns the batch or raises the wrapped error. -/
theorem processNextBatch_spec {PyV : Type} (env : MSEnv PyV) (source : List (List Nat))
    (s1 : PLState PyV) (res : MSResult PyV)
    (hr : s1.rcvdIdx < s1.sendIdx)
    (hpend : s1.pending = source.drop s1.sendIdx)
    (hle2 : s1.sendIdx ≤ source.length)
    (hwin : s1.sendIdx - s1.rcvdIdx ≤ 2 * env.numWorkers)
    (hwinEx : s1.sendIdx - s1.rcvdIdx < 2 * env.numWorkers → s1.sendIdx = source.length)
    (hperm : (seqs s1.outstanding ++ seqs s1.reorderDict).Perm
        (List.range' (s1.rcvdIdx + 1) (s1.sendIdx - s1.rcvdIdx - 1)))
    (houtOk : ∀ p ∈ s1.outstanding, source[p.1]? = some p.2)
    (hdictOk : ∀ p ∈ s1.reorderDict, p.2 = resultAt env source p.1)
    (hcnt : s1.batchesOutstanding = s1.outstanding.length)
    (hsd : s1.shutdown = false) (haf : s1.assertFailed = false)
    (hms : s1.maxSeen ≤ 2 * env.numWorkers) :
    Inv env source (processNextBatch env s1 res).1
    ∧ (processNextBatch env s1 res).1.rcvdIdx = s1.rcvdIdx + 1
    ∧ (processNextBatch env s1 res).2 = outcomeOf res := by
  have hlen : s1.outstanding.length + s1.reorderDict.length =
      s1.sendIdx - s1.rcvdIdx - 1 := by
    have h := hperm.length_eq
    simpa [seqs_length, List.length_append, List.length_range'] using h
  have hcond : s1.batchesOutstanding < 2 * env.numWorkers := by
    rw [hcnt]
    omega
  have hfst : (processNextBatch env s1 res).1 =
      putIndices env { s1 with rcvdIdx := s1.rcvdIdx + 1 } := by
    cases res <;> rfl
  have hsnd : (processNextBatch env s1 res).2 = outcomeOf res := by
    cases res <;> rfl
  rcases hcase : source.drop s1.sendIdx with _ | ⟨ixs, rest⟩
  · have hput : putIndices env { s1 with rcvdIdx := s1.rcvdIdx + 1 } =
        { s1 with rcvdIdx := s1.rcvdIdx + 1 } := by
      simp [putIndices, hcond, hpend, hcase]
    refine ⟨?_, by rw [hfst, hput], hsnd⟩
    rw [hfst, hput]
    constructor
    case pend => simpa using hpend
    case le1 =>
        show s1.rcvdIdx + 1 ≤ s1.sendIdx
        omega
    case le2 => simpa using hle2
    case win =>
        show s1.sendIdx - (s1.rcvdIdx + 1) ≤ 2 * env.numWorkers
        omega
    case winEx =>
        show s1.sendIdx - (s1.rcvdIdx + 1) < 2 * env.numWorkers → s1.sendIdx = source.length
        intro _
        have := List.drop_eq_nil_iff.mp hcase
        omega
    case perm =>
        have hsub : s1.sendIdx - (s1.rcvdIdx + 1) = s1.sendIdx - s1.rcvdIdx - 1 := by
          omega
        simpa [hsub] using hperm
    case outOk => simpa using houtOk
    case dictOk => simpa using hdictOk
    case cnt => simpa using hcnt
    case sd => simpa using hsd
    case af => simpa using haf
    case ms => simpa using hms
  · have hsendlen : s1.sendIdx < source.length := by
      by_contra hcontra
      rw [List.drop_eq_nil_iff.mpr (by omega)] at hcase
      exact absurd hcase (by simp)
    have hdg : source.drop s1.sendIdx = source[s1.sendIdx] :: source.drop (s1.sendIdx + 1) :=
      List.drop_eq_getElem_cons hsendlen
    have hcr : ixs :: rest = source[s1.sendIdx] :: source.drop (s1.sendIdx + 1) :=
      hcase.symm.trans hdg
    have hixs : ixs = source[s1.sendIdx] := (List.cons_eq_cons.mp hcr).1
    have hrest : rest = source.drop (s1.sendIdx + 1) := (List.cons_eq_cons.mp hcr).2
    have hput : putIndices env { s1 with rcvdIdx := s1.rcvdIdx + 1 } =
        { s1 with
          rcvdIdx := s1.rcvdIdx + 1
          pending := rest
          outstanding := s1.outstanding ++ [(s1.sendIdx, ixs)]
          workerQueueIdx := (s1.workerQueueIdx + 1) % env.numWorkers
          batchesOutstanding := s1.batchesOutstanding + 1
          maxSeen := max s1.maxSeen (s1.batchesOutstanding + 1)
          sendIdx := s1.sendIdx + 1 } := by
      simp [putIndices, hcond, hpend, hcase]
    refine ⟨?_, by rw [hfst, hput], hsnd⟩
    rw [hfst, hput]
    constructor
    case pend => simpa using hrest
    case le1 =>
        show s1.rcvdIdx + 1 ≤ s1.sendIdx + 1
        omega
    case le2 =>
        show s1.sendIdx + 1 ≤ source.length
        omega
    case win =>
        show s1.sendIdx + 1 - (s1.rcvdIdx + 1) ≤ 2 * env.numWorkers
        omega
    case winEx =>
        show s1.sendIdx + 1 - (s1.rcvdIdx + 1) < 2 * env.numWorkers →
          s1.sendIdx + 1 = source.length
        intro hlt
        have := hwinEx (by omega)
        omega
    case perm =>
        show (seqs (s1.outstanding ++ [(s1.sendIdx, ixs)]) ++ seqs s1.reorderDict).Perm
          (List.range' (s1.rcvdIdx + 1) (s1.sendIdx + 1 - (s1.rcvdIdx + 1)))
        rw [seqs_append]
        have hone : seqs [(s1.sendIdx, ixs)] = [s1.sendIdx] := rfl
        rw [hone]
        have h1 : ((seqs s1.outstanding ++ [s1.sendIdx]) ++ seqs s1.reorderDict).Perm
            ((seqs s1.outstanding ++ seqs s1.reorderDict) ++ [s1.sendIdx]) := by
          rw [List.append_assoc, List.append_assoc]
          exact List.Perm.append_left _ (List.perm_append_comm)
        have h2 := hperm.append_right [s1.sendIdx]
        have h3 : List.range' (s1.rcvdIdx + 1) (s1.sendIdx + 1 - (s1.rcvdIdx + 1)) =
            List.range' (s1.rcvdIdx + 1) (s1.sendIdx - s1.rcvdIdx - 1) ++ [s1.sendIdx] := by
          have h4 : s1.sendIdx + 1 - (s1.rcvdIdx + 1) = (s1.sendIdx - s1.rcvdIdx - 1) + 1 := by
            omega
          rw [h4, range'_snoc]
          have h5 : s1.rcvdIdx + 1 + (s1.sendIdx - s1.rcvdIdx - 1) = s1.sendIdx := by
            omega
          rw [h5]
        rw [h3]
        exact h1.trans h2
    case outOk =>
        intro p hp
        simp only [List.mem_append, List.mem_singleton] at hp
        rcases hp with hp | hp
        · exact houtOk p hp
        · rw [hp, hixs]
          exact List.getElem?_eq_getElem hsendlen
    case dictOk => simpa using hdictOk
    case cnt => simp [hcnt]
    case sd => simpa using hsd
    case af => simpa using haf
    case ms =>
        show max s1.maxSeen (s1.batchesOutstanding + 1) ≤ 2 * env.numWorkers
        rw [hcnt]
        omega

/-- Helper: under the invariant the expected index lies strictly inside the
dispatch window. -/
theorem rcvd_lt_send {PyV : Type} {env : MSEnv PyV} {source : List (List Nat)}
    {s : PLState PyV} (hInv : Inv env source s) (hmem : s.rcvdIdx ∈ seqs s.outstanding) :
    s.rcvdIdx < s.sendIdx := by
  have h1 : s.rcvdIdx ∈ seqs s.outstanding ++ seqs s.reorderDict :=
    List.mem_append.mpr (Or.inl hmem)
  have h2 : s.rcvdIdx ∈ List.range' s.rcvdIdx (s.sendIdx - s.rcvdIdx) :=
    hInv.perm.mem_iff.mp h1
  have h3 := List.mem_range'_1.mp h2
  omega

/-- Helper: the receive loop of `__next__` eventually draws the expected
sequence number (which the invariant keeps in flight), parking every earlier
out-of-order arrival in the reorder dictionary, and then behaves like
`_process_next_batch` applied to the worker's result for that sequence
number: the invariant is restored, `rcvd_idx` advances by one, and the
outcome is the delivered batch or the wrapped error. -/
theorem nextLoop_spec {PyV : Type} (env : MSEnv PyV) (source : List (List Nat))
    (sched : Nat → Nat) :
    ∀ (fuel : Nat) (s : PLState PyV), Inv env source s →
      s.rcvdIdx ∈ seqs s.outstanding → s.outstanding.length ≤ fuel →
      Inv env source (nextLoop env sched fuel s).1
      ∧ (nextLoop env sched fuel s).1.rcvdIdx = s.rcvdIdx + 1
      ∧ (nextLoop env sched fuel s).2 = outcomeOf (resultAt env source s.rcvdIdx) := by
  intro fuel
  induction fuel with
  | zero =>
      intro s _ hmem hlen
      exfalso
      have h0 : s.outstanding = [] := List.length_eq_zero.mp (Nat.le_zero.mp hlen)
      rw [h0] at hmem
      simp [seqs] at hmem
  | succ fuel ih =>
      intro s hInv hmem hlen
      have hne : s.outstanding ≠ [] := by
        intro h0
        rw [h0] at hmem
        simp [seqs] at hmem
      have hcnt0 : 0 < s.batchesOutstanding := by
        rw [hInv.cnt]
        exact List.length_pos.mpr hne
      have hassert : s.shutdown = false ∧ 0 < s.batchesOutstanding := ⟨hInv.sd, hcnt0⟩
      have hpos : sched s.drawCount % s.outstanding.length < s.outstanding.length :=
        Nat.mod_lt _ (List.length_pos.mpr hne)
      have hitem_mem : s.outstanding.getD (sched s.drawCount % s.outstanding.length) (0, [])
          ∈ s.outstanding := by
        rw [List.getD_eq_getElem s.outstanding (0, []) hpos]
        exact List.getElem_mem hpos
      have hitem_src :
          source[(s.outstanding.getD (sched s.drawCount % s.outstanding.length) (0, [])).1]? =
            some (s.outstanding.getD (sched s.drawCount % s.outstanding.length) (0, [])).2 :=
        hInv.outOk _ hitem_mem
      have hitem_res :
          msProcessItem env
              (s.outstanding.getD (sched s.drawCount % s.outstanding.length) (0, [])).1
              (s.outstanding.getD (sched s.drawCount % s.outstanding.length) (0, [])).2 =
            resultAt env source
              (s.outstanding.getD (sched s.drawCount % s.outstanding.length) (0, [])).1 := by
        rw [resultAt, batchAt, hitem_src]
        rfl
      have hperm_out : s.outstanding.Perm
          ((s.outstanding.getD (sched s.drawCount % s.outstanding.length) (0, [])) ::
            s.outstanding.eraseIdx (sched s.drawCount % s.outstanding.length)) :=
        perm_getD_eraseIdx s.outstanding _ (0, []) hpos
      have hseq_perm : (seqs s.outstanding).Perm
          ((s.outstanding.getD (sched s.drawCount % s.outstanding.length) (0, [])).1 ::
            seqs (s.outstanding.eraseIdx (sched s.drawCount % s.outstanding.length))) := by
        have h := hperm_out.map Prod.fst
        simpa [seqs] using h
      have hlen_erase :
          (s.outstanding.eraseIdx (sched s.drawCount % s.outstanding.length)).length =
            s.outstanding.length - 1 := by
        simp [List.length_eraseIdx, hpos]
      have hrs : s.rcvdIdx < s.sendIdx := rcvd_lt_send hInv hmem
      have hrange : List.range' s.rcvdIdx (s.sendIdx - s.rcvdIdx) =
          s.rcvdIdx :: List.range' (s.rcvdIdx + 1) (s.sendIdx - s.rcvdIdx - 1) := by
        have h4 : s.sendIdx - s.rcvdIdx = (s.sendIdx - s.rcvdIdx - 1) + 1 := by omega
        conv_lhs => rw [h4]
        rw [List.range'_succ]
      rw [nextLoop]
      simp only [if_pos hassert, if_neg hne]
      by_cases hif :
          (s.outstanding.getD (sched s.drawCount % s.outstanding.length) (0, [])).1 = s.rcvdIdx
      · rw [if_pos hif]
        have hshift : ((seqs (s.outstanding.eraseIdx (sched s.drawCount % s.outstanding.length))
            ++ seqs s.reorderDict)).Perm
            (List.range' (s.rcvdIdx + 1) (s.sendIdx - s.rcvdIdx - 1)) := by
          have hc : (s.rcvdIdx ::
              (seqs (s.outstanding.eraseIdx (sched s.drawCount % s.outstanding.length))
                ++ seqs s.reorderDict)).Perm
              (s.rcvdIdx :: List.range' (s.rcvdIdx + 1) (s.sendIdx - s.rcvdIdx - 1)) := by
            have h5 : (s.rcvdIdx ::
                seqs (s.outstanding.eraseIdx (sched s.drawCount % s.outstanding.length))
                  ++ seqs s.reorderDict).Perm
                (seqs s.outstanding ++ seqs s.reorderDict) := by
              refine List.Perm.append_right _ ?_
              rw [← hif]
              exact hseq_perm.symm
            have h6 := h5.trans hInv.perm
            rw [hrange] at h6
            exact h6
          exact hc.cons_inv
        have hspec := processNextBatch_spec env source
          { s with
            outstanding := s.outstanding.eraseIdx (sched s.drawCount % s.outstanding.length)
            batchesOutstanding := s.batchesOutstanding - 1
            drawCount := s.drawCount + 1 }
          (msProcessItem env
            (s.outstanding.getD (sched s.drawCount % s.outstanding.length) (0, [])).1
            (s.outstanding.getD (sched s.drawCount % s.outstanding.length) (0, [])).2)
          hrs hInv.pend hInv.le2 hInv.win hInv.winEx hshift
          (fun p hp => hInv.outOk p (List.mem_of_mem_eraseIdx hp))
          hInv.dictOk (by simp [hInv.cnt, hlen_erase]) hInv.sd hInv.af hInv.ms
        refine ⟨hspec.1, hspec.2.1, ?_⟩
        rw [hspec.2.2, hitem_res, hif]
      · rw [if_neg hif]
        have hmem2 : s.rcvdIdx ∈
            seqs (s.outstanding.eraseIdx (sched s.drawCount % s.outstanding.length)) := by
          have h7 := hseq_perm.mem_iff.mp hmem
          rcases List.mem_cons.mp h7 with h8 | h8
          · exact absurd h8.symm hif
          · exact h8
        have hInv3 : Inv env source
            { s with
              outstanding := s.outstanding.eraseIdx (sched s.drawCount % s.outstanding.length)
              batchesOutstanding := s.batchesOutstanding - 1
              drawCount := s.drawCount + 1
              reorderDict := s.reorderDict ++
                [((s.outstanding.getD (sched s.drawCount % s.outstanding.length) (0, [])).1,
                  msProcessItem env
                    (s.outstanding.getD (sched s.drawCount % s.outstanding.length) (0, [])).1
                    (s.outstanding.getD (sched s.drawCount % s.outstanding.length) (0, [])).2)]
              } := by
          constructor
          case pend => simpa using hInv.pend
          case le1 => simpa using hInv.le1
          case le2 => simpa using hInv.le2
          case win => simpa using hInv.win
          case winEx => simpa using hInv.winEx
          case perm =>
              rw [seqs_append]
              have hone : seqs
                  [((s.outstanding.getD (sched s.drawCount % s.outstanding.length) (0, [])).1,
                    msProcessItem env
                      (s.outstanding.getD (sched s.drawCount % s.outstanding.length) (0, [])).1
                      (s.outstanding.getD (sched s.drawCount % s.outstanding.length) (0, [])).2)] =
                  [(s.outstanding.getD (sched s.drawCount % s.outstanding.length) (0, [])).1] :=
                rfl
              rw [hone, ← List.append_assoc]
              refine (List.perm_append_comm).trans ?_
              rw [List.singleton_append, ← List.cons_append]
              exact (List.Perm.append_right _ hseq_perm.symm).trans hInv.perm
          case outOk => exact fun p hp => hInv.outOk p (List.mem_of_mem_eraseIdx hp)
          case dictOk =>
              intro p hp
              rcases List.mem_append.mp hp with hp2 | hp2
              · exact hInv.dictOk p hp2
              · have hp3 : p =
                    ((s.outstanding.getD (sched s.drawCount % s.outstanding.length) (0, [])).1,
                      msProcessItem env
                        (s.outstanding.getD (sched s.drawCount % s.outstanding.length) (0, [])).1
                        (s.outstanding.getD (sched s.drawCount % s.outstanding.length) (0, [])).2) := by
                  simpa using hp2
                rw [hp3]
                exact hitem_res
          case cnt => simp [hInv.cnt, hlen_erase]
          case sd => simpa using hInv.sd
          case af => simpa using hInv.af
          case ms => simpa using hInv.ms
        have hres := ih _ hInv3 (by simpa using hmem2) (by simp [hlen_erase]; omega)
        exact ⟨hres.1, by rw [hres.2.1], by rw [hres.2.2]⟩

/-- Helper: one `__next__` call on an invariant state delivers the worker
result for the expected sequence number (re-establishing the invariant)
while the source is not fully delivered, and raises `StopIteration`
(setting the shutdown guard) exactly at the end of the source. -/
theorem nextFn_spec {PyV : Type} (env : MSEnv PyV) (source : List (List Nat)) (sched : Nat → Nat)
    (s : PLState PyV) (hInv : Inv env source s) (hn : 1 ≤ env.numWorkers) :
    (s.rcvdIdx < source.length →
      Inv env source (nextFn env sched s).1
      ∧ (nextFn env sched s).1.rcvdIdx = s.rcvdIdx + 1
      ∧ (nextFn env sched s).2 = outcomeOf (resultAt env source s.rcvdIdx))
  ∧ (s.rcvdIdx = source.length →
      nextFn env sched s = ({ s with shutdown := true }, NextOut.stopIter)
      ∧ DoneSt env source { s with shutdown := true }) := by
  have hlen_eq : (seqs s.outstanding).length + (seqs s.reorderDict).length =
      s.sendIdx - s.rcvdIdx := by
    have h := hInv.perm.length_eq
    simpa [List.length_append, List.length_range'] using h
  constructor
  · intro hlt
    have hrs : s.rcvdIdx < s.sendIdx := by
      by_cases h : s.sendIdx - s.rcvdIdx < 2 * env.numWorkers
      · have := hInv.winEx h
        omega
      · have := hInv.le1
        omega
    have hrange : List.range' s.rcvdIdx (s.sendIdx - s.rcvdIdx) =
        s.rcvdIdx :: List.range' (s.rcvdIdx + 1) (s.sendIdx - s.rcvdIdx - 1) := by
      have h4 : s.sendIdx - s.rcvdIdx = (s.sendIdx - s.rcvdIdx - 1) + 1 := by omega
      conv_lhs => rw [h4]
      rw [List.range'_succ]
    have hmem_all : s.rcvdIdx ∈ seqs s.outstanding ++ seqs s.reorderDict := by
      refine hInv.perm.mem_iff.mpr ?_
      refine List.mem_range'_1.mpr ⟨Nat.le_refl _, ?_⟩
      omega
    rcases hdg : dictGet s.rcvdIdx s.reorderDict with _ | b
    · have hnotdict : s.rcvdIdx ∉ seqs s.reorderDict := dictGet_none _ _ hdg
      have hmem : s.rcvdIdx ∈ seqs s.outstanding := by
        rcases List.mem_append.mp hmem_all with h | h
        · exact h
        · exact absurd h hnotdict
      have hc0 : s.batchesOutstanding ≠ 0 := by
        rw [hInv.cnt]
        intro h0
        rw [List.length_eq_zero.mp h0] at hmem
        simp [seqs] at hmem
      have hfn : nextFn env sched s = nextLoop env sched s.outstanding.length s := by
        simp only [nextFn, hdg, if_neg hc0]
      rw [hfn]
      exact nextLoop_spec env source sched s.outstanding.length s hInv hmem (Nat.le_refl _)
    · have hb_mem : (s.rcvdIdx, b) ∈ s.reorderDict := dictGet_mem _ _ _ hdg
      have hb_eq : b = resultAt env source s.rcvdIdx := hInv.dictOk _ hb_mem
      have hfn : nextFn env sched s =
          processNextBatch env { s with reorderDict := dictErase s.rcvdIdx s.reorderDict } b := by
        simp only [nextFn, hdg]
      have hshift : (seqs s.outstanding ++ seqs (dictErase s.rcvdIdx s.reorderDict)).Perm
          (List.range' (s.rcvdIdx + 1) (s.sendIdx - s.rcvdIdx - 1)) := by
        have h1 : (s.rcvdIdx ::
            (seqs s.outstanding ++ seqs (dictErase s.rcvdIdx s.reorderDict))).Perm
            (seqs s.outstanding ++ seqs s.reorderDict) :=
          (List.perm_middle.symm).trans
            (List.Perm.append_left (seqs s.outstanding) (dictErase_perm _ _ _ hdg).symm)
        have h2 := h1.trans hInv.perm
        rw [hrange] at h2
        exact h2.cons_inv
      have hspec := processNextBatch_spec env source
        { s with reorderDict := dictErase s.rcvdIdx s.reorderDict } b
        hrs hInv.pend hInv.le2 hInv.win hInv.winEx hshift hInv.outOk
        (fun p hp => hInv.dictOk p (dictErase_subset _ _ p hp))
        hInv.cnt hInv.sd hInv.af hInv.ms
      rw [hfn]
      exact ⟨hspec.1, hspec.2.1, by rw [hspec.2.2, hb_eq]⟩
  · intro heq
    have hsend : s.sendIdx = s.rcvdIdx := by
      have h1 := hInv.le1
      have h2 := hInv.le2
      omega
    have hnil : seqs s.outstanding ++ seqs s.reorderDict = [] := by
      have h := hInv.perm
      rw [hsend, Nat.sub_self] at h
      exact h.eq_nil
    have hout : s.outstanding = [] := by
      have := (List.append_eq_nil.mp hnil).1
      simpa [seqs] using this
    have hdict : s.reorderDict = [] := by
      have := (List.append_eq_nil.mp hnil).2
      simpa [seqs] using this
    have hc : s.batchesOutstanding = 0 := by
      rw [hInv.cnt, hout]
      rfl
    have hfn : nextFn env sched s = ({ s with shutdown := true }, NextOut.stopIter) := by
      simp [nextFn, hdict, dictGet, hc]
    refine ⟨hfn, ?_⟩
    refine { pend := ?_, eqIdx := ?_, send := ?_, outE := hout, dictE := hdict,
             cnt := hc, sd := rfl, af := hInv.af, ms := hInv.ms }
    · show s.pending = []
      rw [hInv.pend, hsend, heq]
      exact List.drop_length source
    · show s.rcvdIdx = s.sendIdx
      omega
    · show s.sendIdx = source.length
      omega

/-- Helper: at every `__next__` boundary the state is either live with the
invariant or terminal. -/
theorem nextFn_top {PyV : Type} (env : MSEnv PyV) (source : List (List Nat)) (sched : Nat → Nat)
    (s : PLState PyV) (hn : 1 ≤ env.numWorkers) (h : TopInv env source s) :
    TopInv env source (nextFn env sched s).1 := by
  rcases h with hInv | hDone
  · by_cases hlt : s.rcvdIdx < source.length
    · exact Or.inl ((nextFn_spec env source sched s hInv hn).1 hlt).1
    · have heq : s.rcvdIdx = source.length := by
        have h1 := hInv.le1
        have h2 := hInv.le2
        omega
      rcases (nextFn_spec env source sched s hInv hn).2 heq with ⟨heqFn, hDone2⟩
      rw [heqFn]
      exact Or.inr hDone2
  · have hfn : nextFn env sched s = ({ s with shutdown := true }, NextOut.stopIter) := by
      simp [nextFn, hDone.dictE, dictGet, hDone.cnt]
    rw [hfn]
    exact Or.inr { pend := hDone.pend, eqIdx := hDone.eqIdx, send := hDone.send,
                   outE := hDone.outE, dictE := hDone.dictE, cnt := hDone.cnt,
                   sd := rfl, af := hDone.af, ms := hDone.ms }

/-- Helper: every state reachable after priming and `k` consumer calls is
live-invariant or terminal. -/
theorem runState_top {PyV : Type} (env : MSEnv PyV) (source : List (List Nat))
    (sched : Nat → Nat) (hn : 1 ≤ env.numWorkers) :
    ∀ k, TopInv env source (runState env sched source k) := by
  intro k
  induction k with
  | zero =>
      rw [runState, Function.iterate_zero_apply]
      exact Or.inl (primed_inv env source)
  | succ k ih =>
      rw [runState] at ih ⊢
      rw [Function.iterate_succ_apply']
      exact nextFn_top env source sched _ hn ih

/-- Helper: a consumer loop started on an invariant state delivers, in
order, the worker results for all sequence numbers up to `m`, then ends with
`StopIteration` when `m` is the source length, or with the wrapped error of
the failing batch `m`. -/
theorem consumerRun_spec {PyV : Type} (env : MSEnv PyV) (source : List (List Nat))
    (sched : Nat → Nat) (m : Nat) (hn : 1 ≤ env.numWorkers) (hml : m ≤ source.length)
    (hend : m = source.length ∨ (resultAt env source m).isData = false) :
    ∀ (fuel : Nat) (s : PLState PyV), Inv env source s →
      s.rcvdIdx ≤ m →
      (∀ j, s.rcvdIdx ≤ j → j < m → (resultAt env source j).isData = true) →
      m - s.rcvdIdx < fuel →
      consumerRun env sched fuel s =
        ((List.range' s.rcvdIdx (m - s.rcvdIdx)).map
            (fun j => (resultAt env source j).payload),
          if m = source.length then RunEnd.stopped
          else RunEnd.errored (wrapOf (resultAt env source m))) := by
  intro fuel
  induction fuel with
  | zero =>
      intro s _ _ _ hf
      omega
  | succ fuel ih =>
      intro s hInv hm hsucc hf
      by_cases heq : s.rcvdIdx = m
      · by_cases hML : m = source.length
        · have h2 := (nextFn_spec env source sched s hInv hn).2 (by omega)
          rw [consumerRun, h2.1, heq, Nat.sub_self]
          simp [hML]
        · have hfail : (resultAt env source m).isData = false := hend.resolve_left hML
          have hlt : s.rcvdIdx < source.length := by omega
          have hd := (nextFn_spec env source sched s hInv hn).1 hlt
          rcases hres : resultAt env source s.rcvdIdx with p | ⟨ty, msg⟩
          · rw [heq] at hres
            rw [hres] at hfail
            exact absurd hfail (by simp [MSResult.isData])
          · have hres_m : resultAt env source m = MSResult.excWrapper ty msg := heq ▸ hres
            rcases hfn : nextFn env sched s with ⟨s2, o⟩
            have ho : o = NextOut.raised (wrapExc ty msg) := by
              have h5 := hd.2.2
              rw [hfn, hres] at h5
              exact h5
            subst ho
            rw [consumerRun, hfn, heq, Nat.sub_self]
            simp [hML, hres_m, wrapOf]
      · have hlt2 : s.rcvdIdx < m := by omega
        have hlt : s.rcvdIdx < source.length := by omega
        have hd := (nextFn_spec env source sched s hInv hn).1 hlt
        have hsucc0 : (resultAt env source s.rcvdIdx).isData = true :=
          hsucc _ (Nat.le_refl _) hlt2
        rcases hres : resultAt env source s.rcvdIdx with p | ⟨ty, msg⟩
        · rcases hfn : nextFn env sched s with ⟨s2, o⟩
          have hInv2 : Inv env source s2 := by
            have h5 := hd.1
            rw [hfn] at h5
            exact h5
          have hr2 : s2.rcvdIdx = s.rcvdIdx + 1 := by
            have h5 := hd.2.1
            rw [hfn] at h5
            exact h5
          have ho : o = NextOut.batch p := by
            have h5 := hd.2.2
            rw [hfn, hres] at h5
            exact h5
          subst ho
          have hih := ih s2 hInv2 (by omega)
            (fun j hj1 hj2 => hsucc j (by omega) hj2) (by omega)
          rw [consumerRun, hfn]
          dsimp only
          have hrange : List.range' s.rcvdIdx (m - s.rcvdIdx) =
              s.rcvdIdx :: List.range' (s.rcvdIdx + 1) (m - s.rcvdIdx - 1) := by
            have h4 : m - s.rcvdIdx = (m - s.rcvdIdx - 1) + 1 := by omega
            conv_lhs => rw [h4]
            rw [List.range'_succ]
          rw [hih, hr2, hrange]
          have hsub : m - (s.rcvdIdx + 1) = m - s.rcvdIdx - 1 := by omega
          rw [hsub]
          simp [hres, MSResult.payload]
        · rw [hres] at hsucc0
          exact absurd hsucc0 (by simp [MSResult.isData])

/-- C3: `shutdown()` is idempotent: whatever the pipeline state, after one
call of `_shutdown_workers` has returned, a second call performs no
channel/worker/registry action at all and returns normally with the state
unchanged (the guard flag ensures the body runs at most once, and the
interpreter-exit guard is stable within one run). -/
theorem shutdown_idempotent (status : Option Bool) (ctx : ShutCtx) (st : ShutState) :
    shutdownWorkers status ctx (shutdownWorkers status ctx st).1 =
      ((shutdownWorkers status ctx st).1, []) := by
  unfold shutdownWorkers
  by_cases h1 : status = some true ∨ status = none
  · simp [h1]
  · by_cases h2 : st.shutdown = true <;> simp [h1, h2]

/-- Helper: the registry-release action is not among the relay-termination
actions. -/
theorem removePids_not_relay (b : Bool) : ShutAction.removeWorkerPids ∉ relayTermination b := by
  cases b <;> simp [relayTermination]

/-- Helper: the registry-release action is not among the per-worker
sentinel/close actions. -/
theorem removePids_not_stops (n : Nat) : ShutAction.removeWorkerPids ∉ workerStops n := by
  simp [workerStops]

/-- Helper: the registry-release action is not among the per-worker joins. -/
theorem removePids_not_joins (n : Nat) : ShutAction.removeWorkerPids ∉ workerJoins n := by
  simp [workerJoins]

/-- C8: when the shutdown body runs (normal interpreter state, guard not yet
set, worker pids registered), its action trace is exactly: the stop signal
first; then, when the relay (pin-memory) stage exists, its termination
sentinel and join strictly before the shared result queue is closed; then
sentinel-and-close on every worker input queue; then a join of every worker;
and the registry release last, exactly once. -/
theorem shutdown_order (ctx : ShutCtx) (st : ShutState)
    (h1 : st.shutdown = false) (h2 : st.workerPidsSet = true) :
    (shutdownWorkers (some false) ctx st).2 =
      [ShutAction.setDoneEvent] ++ relayTermination ctx.hasPinThread
        ++ workerStops ctx.numWorkers ++ workerJoins ctx.numWorkers
        ++ [ShutAction.removeWorkerPids]
  ∧ ((shutdownWorkers (some false) ctx st).2).count ShutAction.removeWorkerPids = 1
  ∧ relayTermination true =
      [ShutAction.cancelJoinResultQueue, ShutAction.putSentinelResultQueue,
       ShutAction.joinPinMemoryThread, ShutAction.closeResultQueue] := by
  have htr : (shutdownWorkers (some false) ctx st).2 =
      [ShutAction.setDoneEvent] ++ relayTermination ctx.hasPinThread
        ++ workerStops ctx.numWorkers ++ workerJoins ctx.numWorkers
        ++ [ShutAction.removeWorkerPids] := by
    simp [shutdownWorkers, h1, h2]
  refine ⟨htr, ?_, rfl⟩
  rw [htr]
  simp [List.count_append, List.count_eq_zero.mpr (removePids_not_relay ctx.hasPinThread),
    List.count_eq_zero.mpr (removePids_not_stops ctx.numWorkers),
    List.count_eq_zero.mpr (removePids_not_joins ctx.numWorkers), List.count_singleton,
    List.count_cons]

/-- Witness for C8 at a concrete configuration: two workers, relay present. -/
theorem shutdown_order_witness :
    (ShutState.mk false true).shutdown = false ∧ (ShutState.mk false true).workerPidsSet = true ∧
    ((shutdownWorkers (some false) (ShutCtx.mk 2 true) (ShutState.mk false true)).2 =
      [ShutAction.setDoneEvent] ++ relayTermination true
        ++ workerStops 2 ++ workerJoins 2 ++ [ShutAction.removeWorkerPids]
    ∧ ((shutdownWorkers (some false) (ShutCtx.mk 2 true) (ShutState.mk false true)).2).count
        ShutAction.removeWorkerPids = 1
    ∧ relayTermination true =
      [ShutAction.cancelJoinResultQueue, ShutAction.putSentinelResultQueue,
       ShutAction.joinPinMemoryThread, ShutAction.closeResultQueue]) :=
  ⟨rfl, rfl, shutdown_order (ShutCtx.mk 2 true) (ShutState.mk false true) rfl rfl⟩

/-- C6 counterexample: with a dead worker in the pool, a blocking receive
that obtains no Result within the configured hard timeout of `5` raises the
worker-death error, not a timeout error naming the elapsed duration, so the
claim as stated (for every such receive) fails. -/
theorem hard_timeout_cex :
    getBatchTimeout 5 [WorkerProc.mk 7 false] (fun _ => (QueueOutcome.empty : QueueOutcome Nat)) =
      Except.error
        { excType := "RuntimeError",
          excMsg := "DataLoader worker (pid(s) 7) exited unexpectedly" }
  ∧ ("DataLoader worker (pid(s) 7) exited unexpectedly" : String) ≠ timeoutMsg 5 :=
  ⟨rfl, by decide⟩

/-- C6 amended: when every worker is alive, a blocking receive under a
configured positive hard timeout raises the timeout error naming the
configured duration exactly when the underlying receive waited out that
duration and returned empty; a Result arriving within the timeout is
returned instead. -/
theorem hard_timeout_spec {β : Type} (timeout : Nat) (ws : List WorkerProc)
    (getAt : Nat → QueueOutcome β) (halive : ws.all (fun w => w.alive) = true) :
    (getAt timeout = QueueOutcome.empty →
      getBatchTimeout timeout ws getAt =
        Except.error { excType := "RuntimeError", excMsg := timeoutMsg timeout })
  ∧ (∀ d, getAt timeout = QueueOutcome.got d →
      getBatchTimeout timeout ws getAt = Except.ok d) := by
  constructor
  · intro hE
    simp [getBatchTimeout, tryGetBatch, hE, halive]
  · intro d hD
    simp [getBatchTimeout, tryGetBatch, hD]

/-- Witness for C6 amended: one live worker; an empty receive at timeout 5
raises the timeout error, while an arrived Result is returned. -/
theorem hard_timeout_spec_witness :
    ([WorkerProc.mk 3 true].all (fun w => w.alive) = true) ∧
    (((fun _ => (QueueOutcome.empty : QueueOutcome Nat)) 5 = QueueOutcome.empty →
      getBatchTimeout 5 [WorkerProc.mk 3 true] (fun _ => (QueueOutcome.empty : QueueOutcome Nat)) =
        Except.error { excType := "RuntimeError", excMsg := timeoutMsg 5 })
    ∧ (∀ d, (fun _ => (QueueOutcome.empty : QueueOutcome Nat)) 5 = QueueOutcome.got d →
      getBatchTimeout 5 [WorkerProc.mk 3 true] (fun _ => (QueueOutcome.empty : QueueOutcome Nat)) =
        Except.ok d)) :=
  ⟨rfl, hard_timeout_spec 5 [WorkerProc.mk 3 true] (fun _ => QueueOutcome.empty) rfl⟩

/-- Helper for C7: the polling receive loop returns the first arrived Result
when every earlier receive in the window came back empty and all workers are
alive. -/
theorem getBatchLoop_retries {β : Type} (ws : List WorkerProc) (getSeq : Nat → QueueOutcome β)
    (halive : ws.all (fun w => w.alive) = true) :
    ∀ (k t : Nat) (d : β), (∀ j, j < k → getSeq (t + j) = QueueOutcome.empty) →
      getSeq (t + k) = QueueOutcome.got d →
      getBatchLoop ws getSeq t (k + 1) = some (Except.ok d) := by
  intro k
  induction k with
  | zero =>
      intro t d _ hgot
      simp only [Nat.add_zero] at hgot
      simp [getBatchLoop, tryGetBatch, hgot]
  | succ k ih =>
      intro t d hempty hgot
      have h0 : getSeq t = QueueOutcome.empty := by
        simpa using hempty 0 (Nat.succ_pos k)
      have hrest : ∀ j, j < k → getSeq (t + 1 + j) = QueueOutcome.empty := by
        intro j hj
        have := hempty (j + 1) (Nat.succ_lt_succ hj)
        simpa [Nat.add_assoc, Nat.add_comm 1 j] using this
      have hgot2 : getSeq (t + 1 + k) = QueueOutcome.got d := by
        simpa [Nat.add_assoc, Nat.add_comm 1 k] using hgot
      rw [getBatchLoop, h0]
      simp only [tryGetBatch, halive, if_pos]
      exact ih (t + 1) d hrest hgot2

/-- C7: when a blocking receive from the output channel returns empty on the
internal polling interval or raises, the detector checks liveness of the
whole pool; if at least one worker died it raises an error identifying
exactly the dead workers' pids; and if all workers are alive and the receive
merely timed out, the blocking receive in `_get_batch` is retried until a
Result arrives. -/
theorem worker_death_detection {β : Type} (ws : List WorkerProc)
    (getSeq : Nat → QueueOutcome β) (k : Nat) (d : β)
    (hdead : ws.all (fun w => w.alive) = false) :
    (tryGetBatch ws (QueueOutcome.empty : QueueOutcome β) =
        Except.error { excType := "RuntimeError", excMsg := workerDeathMsg ws })
  ∧ (∀ e, tryGetBatch ws (QueueOutcome.exc e : QueueOutcome β) =
        Except.error { excType := "RuntimeError", excMsg := workerDeathMsg ws })
  ∧ (∀ (ws2 : List WorkerProc), ws2.all (fun w => w.alive) = true →
      (∀ j, j < k → getSeq j = QueueOutcome.empty) → getSeq k = QueueOutcome.got d →
      getBatchLoop ws2 getSeq 0 (k + 1) = some (Except.ok d)) := by
  refine ⟨?_, ?_, ?_⟩
  · simp [tryGetBatch, hdead]
  · intro e
    simp [tryGetBatch, hdead]
  · intro ws2 halive hempty hgot
    exact getBatchLoop_retries ws2 getSeq halive k 0 d (by simpa using hempty) (by simpa using hgot)

/-- Witness for C7: a pool with one dead worker (pid 9) raises the error
naming it, and with a live pool the loop retries twice and returns the
Result that arrives on the third poll. -/
theorem worker_death_detection_witness :
    ([WorkerProc.mk 3 true, WorkerProc.mk 9 false].all (fun w => w.alive) = false) ∧
    ((tryGetBatch [WorkerProc.mk 3 true, WorkerProc.mk 9 false]
        (QueueOutcome.empty : QueueOutcome Nat) =
      Except.error
        (PyExc.mk "RuntimeError" (workerDeathMsg [WorkerProc.mk 3 true, WorkerProc.mk 9 false])))
    ∧ (∀ e, tryGetBatch [WorkerProc.mk 3 true, WorkerProc.mk 9 false]
        (QueueOutcome.exc e : QueueOutcome Nat) =
      Except.error
        (PyExc.mk "RuntimeError" (workerDeathMsg [WorkerProc.mk 3 true, WorkerProc.mk 9 false])))
    ∧ (∀ (ws2 : List WorkerProc), ws2.all (fun w => w.alive) = true →
      (∀ j, j < 2 → (fun t => if t < 2 then QueueOutcome.empty else QueueOutcome.got 42) j =
          QueueOutcome.empty) →
      (fun t => if t < 2 then QueueOutcome.empty else QueueOutcome.got 42) 2 =
          QueueOutcome.got 42 →
      getBatchLoop ws2 (fun t => if t < 2 then QueueOutcome.empty else QueueOutcome.got 42) 0 3 =
        some (Except.ok 42))) :=
  ⟨rfl, worker_death_detection [WorkerProc.mk 3 true, WorkerProc.mk 9 false]
    (fun t => if t < 2 then QueueOutcome.empty else QueueOutcome.got 42) 2 42 rfl⟩

/-! ### Delivery-order, window and error-propagation claims -/

/-- Helper: `rcvd_idx` of the primed state is `0`. -/
theorem primed_rcvdIdx {PyV : Type} (env : MSEnv PyV) (source : List (List Nat)) :
    (primed env source : PLState PyV).rcvdIdx = 0 := by
  rw [primed, putIndices_iterate env source _ (Nat.le_refl _)]

/-- Helper: under the invariant the in-flight counter is bounded by the
window. -/
theorem inv_counter_le {PyV : Type} {env : MSEnv PyV} {source : List (List Nat)}
    {s : PLState PyV} (hInv : Inv env source s) :
    s.batchesOutstanding ≤ 2 * env.numWorkers := by
  have hlen := hInv.perm.length_eq
  simp only [List.length_append, List.length_range', seqs_length] at hlen
  have hwin := hInv.win
  rw [hInv.cnt]
  omega

/-- Helper: an all-success pipelined run delivers the worker results of the
source batches in source order and then stops. -/
theorem consumerRun_all_success {PyV : Type} (env : MSEnv PyV) (source : List (List Nat))
    (sched : Nat → Nat) (hn : 1 ≤ env.numWorkers)
    (hsucc : ∀ j, j < source.length → (resultAt env source j).isData = true) :
    consumerRun env sched (source.length + 1) (primed env source) =
      ((List.range source.length).map (fun j => (resultAt env source j).payload),
        RunEnd.stopped) := by
  have h := consumerRun_spec env source sched source.length hn (Nat.le_refl _) (Or.inl rfl)
    (source.length + 1) (primed env source) (primed_inv env source)
    (by rw [primed_rcvdIdx]; exact Nat.zero_le _)
    (by rw [primed_rcvdIdx]; intro j _ hj2; exact hsucc j hj2)
    (by rw [primed_rcvdIdx]; omega)
  rw [h, primed_rcvdIdx]
  simp [List.range_eq_range']

/-- C1: with at least one worker, for every Batch Source, every fetch/collate
collaborator succeeding on every batch, and every order in which tagged
results arrive on the shared output channel (the schedule oracle), the
consumer's successive `next()` calls return exactly the worker results of
the source batches, in Batch Source order, followed by `StopIteration`. -/
theorem fifo_order_preserved {PyV : Type} (env : MSEnv PyV) (source : List (List Nat))
    (sched : Nat → Nat) (hn : 1 ≤ env.numWorkers)
    (hsucc : ∀ j, j < source.length → (resultAt env source j).isData = true) :
    consumerRun env sched (source.length + 1) (primed env source) =
      ((List.range source.length).map (fun j => (resultAt env source j).payload),
        RunEnd.stopped) :=
  consumerRun_all_success env source sched hn hsucc

/-- Witness for C1: two workers, three batches, out-of-order completion. -/
theorem fifo_order_preserved_witness :
    (1 ≤ (simpleEnv 2).numWorkers
      ∧ ∀ j, j < ([[0], [1], [2]] : List (List Nat)).length →
          (resultAt (simpleEnv 2) [[0], [1], [2]] j).isData = true)
    ∧ consumerRun (simpleEnv 2) swapSched (([[0], [1], [2]] : List (List Nat)).length + 1)
        (primed (simpleEnv 2) [[0], [1], [2]]) =
      ((List.range ([[0], [1], [2]] : List (List Nat)).length).map
          (fun j => (resultAt (simpleEnv 2) [[0], [1], [2]] j).payload), RunEnd.stopped) :=
  ⟨⟨by decide, by decide⟩,
    fifo_order_preserved (simpleEnv 2) [[0], [1], [2]] swapSched (by decide) (by decide)⟩

/-- C2: with at least one worker, priming dispatches at most
`2 * num_workers` batches; at every reachable consumer-call boundary the
in-flight counter lies between `0` and `2 * num_workers`; the instrumented
peak of the counter (covering every instant, since the counter only ever
rises inside `_put_indices`) never exceeds the window; and no Python assert
ever fails — in particular `_put_indices` is never entered with a full
window. -/
theorem window_invariant {PyV : Type} (env : MSEnv PyV) (source : List (List Nat))
    (sched : Nat → Nat) (k : Nat) (hn : 1 ≤ env.numWorkers) :
    (primed env source : PLState PyV).sendIdx ≤ 2 * env.numWorkers
  ∧ (runState env sched source k : PLState PyV).batchesOutstanding ≤ 2 * env.numWorkers
  ∧ (runState env sched source k : PLState PyV).maxSeen ≤ 2 * env.numWorkers
  ∧ (runState env sched source k : PLState PyV).assertFailed = false := by
  refine ⟨?_, ?_, ?_, ?_⟩
  · rw [primed, putIndices_iterate env source _ (Nat.le_refl _)]
    simp
  · rcases runState_top env source sched hn k with hInv | hDone
    · exact inv_counter_le hInv
    · rw [hDone.cnt]
      exact Nat.zero_le _
  · rcases runState_top env source sched hn k with hInv | hDone
    · exact hInv.ms
    · exact hDone.ms
  · rcases runState_top env source sched hn k with hInv | hDone
    · exact hInv.af
    · exact hDone.af

/-- Witness for C2: one worker, four batches, out-of-order schedule, after
two consumer calls. -/
theorem window_invariant_witness :
    1 ≤ (simpleEnv 1).numWorkers
    ∧ ((primed (simpleEnv 1) [[0], [1], [2], [3]] : PLState Nat).sendIdx ≤
          2 * (simpleEnv 1).numWorkers
      ∧ (runState (simpleEnv 1) swapSched [[0], [1], [2], [3]] 2).batchesOutstanding ≤
          2 * (simpleEnv 1).numWorkers
      ∧ (runState (simpleEnv 1) swapSched [[0], [1], [2], [3]] 2).maxSeen ≤
          2 * (simpleEnv 1).numWorkers
      ∧ (runState (simpleEnv 1) swapSched [[0], [1], [2], [3]] 2).assertFailed = false) :=
  ⟨by decide, window_invariant (simpleEnv 1) [[0], [1], [2], [3]] swapSched 2 (by decide)⟩

/-- C4: when the fetch/collate collaborator fails exactly at sequence number
`k` (with `0 < k < total`) and succeeds on every earlier batch, the consumer
receives batches `0 .. k-1` in order, the `next()` call that reaches
sequence number `k` raises the wrapped error, and the run delivers no
further batch. -/
theorem error_at_k {PyV : Type} (env : MSEnv PyV) (source : List (List Nat))
    (sched : Nat → Nat) (k : Nat) (hn : 1 ≤ env.numWorkers) (hk0 : 0 < k)
    (hkl : k < source.length)
    (hsucc : ∀ j, j < k → (resultAt env source j).isData = true)
    (hfail : (resultAt env source k).isData = false) :
    consumerRun env sched (source.length + 1) (primed env source) =
      ((List.range k).map (fun j => (resultAt env source j).payload),
        RunEnd.errored (wrapOf (resultAt env source k))) := by
  have h := consumerRun_spec env source sched k hn (by omega) (Or.inr hfail)
    (source.length + 1) (primed env source) (primed_inv env source)
    (by rw [primed_rcvdIdx]; exact Nat.zero_le _)
    (by rw [primed_rcvdIdx]; intro j _ hj2; exact hsucc j hj2)
    (by rw [primed_rcvdIdx]; omega)
  rw [h, primed_rcvdIdx]
  have hne : ¬(k = source.length) := by omega
  simp [List.range_eq_range', hne]

/-- Witness for C4: failure on batch 2 of 5 with one worker and an
out-of-order schedule. -/
theorem error_at_k_witness :
    (1 ≤ (failAtEnv 2 (PyExc.mk "ValueError" "boom")).numWorkers
      ∧ 0 < 2 ∧ 2 < ([[0], [1], [2], [3], [4]] : List (List Nat)).length
      ∧ (∀ j, j < 2 →
          (resultAt (failAtEnv 2 (PyExc.mk "ValueError" "boom"))
            [[0], [1], [2], [3], [4]] j).isData = true)
      ∧ (resultAt (failAtEnv 2 (PyExc.mk "ValueError" "boom"))
          [[0], [1], [2], [3], [4]] 2).isData = false)
    ∧ consumerRun (failAtEnv 2 (PyExc.mk "ValueError" "boom")) swapSched
        (([[0], [1], [2], [3], [4]] : List (List Nat)).length + 1)
        (primed (failAtEnv 2 (PyExc.mk "ValueError" "boom")) [[0], [1], [2], [3], [4]]) =
      ((List.range 2).map (fun j => (resultAt (failAtEnv 2 (PyExc.mk "ValueError" "boom"))
          [[0], [1], [2], [3], [4]] j).payload),
        RunEnd.errored (wrapOf (resultAt (failAtEnv 2 (PyExc.mk "ValueError" "boom"))
          [[0], [1], [2], [3], [4]] 2))) :=
  ⟨⟨by decide, by decide, by decide, by decide, by decide⟩,
    error_at_k (failAtEnv 2 (PyExc.mk "ValueError" "boom")) [[0], [1], [2], [3], [4]]
      swapSched 2 (by decide) (by decide) (by decide) (by decide) (by decide)⟩

/-- Helper: the `_ms_loop` worker loop processes every work item before the
sentinel, also past failures, tagging each result with its own sequence
number. -/
theorem msLoop_processes_all {PyV : Type} (env : MSEnv PyV) :
    ∀ items : List (Nat × List Nat),
      msLoop env (items.map some ++ [none]) =
        items.map (fun p => (p.1, msProcessItem env p.1 p.2)) := by
  intro items
  induction items with
  | nil => rfl
  | cons p rest ih =>
      rcases p with ⟨idx, batchIndices⟩
      simp only [List.map_cons, List.cons_append, msLoop]
      exact congrArg (fun t => (idx, msProcessItem env idx batchIndices) :: t) ih

/-- C5 counterexample: a worker error classified `KeyError` with a multiline
message is re-raised by the consumer as a plain `Exception` whose message has
`"KeyError:"` prepended, so the re-raise is not verbatim for every original
error classification and message. -/
theorem worker_error_cex :
    (consumerRun (failAtEnv 0 (PyExc.mk "KeyError" "a\nb")) fifoSched 2
        (primed (failAtEnv 0 (PyExc.mk "KeyError" "a\nb")) [[0]])).2 =
      RunEnd.errored (PyExc.mk "Exception" "KeyError:a\nb")
  ∧ PyExc.mk "Exception" "KeyError:a\nb" ≠ PyExc.mk "KeyError" "a\nb" :=
  ⟨by decide, by decide⟩

/-- C5 amended: an error raised inside a worker never terminates the worker
loop — every work item before the sentinel is processed and each failure
becomes a failure Result tagged with its own sequence number — and the
consumer's `next()` that reaches the failing sequence number re-raises the
error with the original classification and message, verbatim except when the
original classification is `KeyError` and the message contains a newline, in
which case a plain `Exception` with message `"KeyError:" ++ msg` is raised
(the multiline-`KeyError` workaround in `_process_next_batch`). -/
theorem worker_error_propagation {PyV : Type} (env : MSEnv PyV) (source : List (List Nat))
    (sched : Nat → Nat) (k : Nat) (ty msg : String) (hn : 1 ≤ env.numWorkers)
    (hkl : k < source.length)
    (hsucc : ∀ j, j < k → (resultAt env source j).isData = true)
    (hexc : resultAt env source k = MSResult.excWrapper ty msg) :
    (∀ items : List (Nat × List Nat),
        msLoop env (items.map some ++ [none]) =
          items.map (fun p => (p.1, msProcessItem env p.1 p.2)))
  ∧ (consumerRun env sched (source.length + 1) (primed env source)).2 =
      RunEnd.errored (wrapExc ty msg)
  ∧ (∀ ty2 msg2 : String, ¬(ty2 = "KeyError" ∧ msg2.data.contains '\n' = true) →
      wrapExc ty2 msg2 = PyExc.mk ty2 msg2) := by
  refine ⟨msLoop_processes_all env, ?_, ?_⟩
  · have hfail : (resultAt env source k).isData = false := by
      rw [hexc]
      rfl
    have h := consumerRun_spec env source sched k hn (by omega) (Or.inr hfail)
      (source.length + 1) (primed env source) (primed_inv env source)
      (by rw [primed_rcvdIdx]; exact Nat.zero_le _)
      (by rw [primed_rcvdIdx]; intro j _ hj2; exact hsucc j hj2)
      (by rw [primed_rcvdIdx]; omega)
    rw [h]
    have hne : ¬(k = source.length) := by omega
    simp only [hne, if_neg, not_false_iff, hexc, wrapOf]
  · intro ty2 msg2 hnot
    rw [wrapExc, if_neg]
    intro hcontra
    exact hnot ⟨hcontra.1, hcontra.2⟩

/-- Witness for C5 amended: looping past a `TypeError` on batch 1 of 3. -/
theorem worker_error_propagation_witness :
    (1 ≤ (failAtEnv 1 (PyExc.mk "TypeError" "bad")).numWorkers
      ∧ 1 < ([[0], [1], [2]] : List (List Nat)).length
      ∧ (∀ j, j < 1 → (resultAt (failAtEnv 1 (PyExc.mk "TypeError" "bad"))
          [[0], [1], [2]] j).isData = true)
      ∧ resultAt (failAtEnv 1 (PyExc.mk "TypeError" "bad")) [[0], [1], [2]] 1 =
          MSResult.excWrapper "TypeError" "bad")
    ∧ ((∀ items : List (Nat × List Nat),
          msLoop (failAtEnv 1 (PyExc.mk "TypeError" "bad")) (items.map some ++ [none]) =
            items.map (fun p => (p.1,
              msProcessItem (failAtEnv 1 (PyExc.mk "TypeError" "bad")) p.1 p.2)))
      ∧ (consumerRun (failAtEnv 1 (PyExc.mk "TypeError" "bad")) fifoSched
            (([[0], [1], [2]] : List (List Nat)).length + 1)
            (primed (failAtEnv 1 (PyExc.mk "TypeError" "bad")) [[0], [1], [2]])).2 =
          RunEnd.errored (wrapExc "TypeError" "bad")
      ∧ (∀ ty2 msg2 : String, ¬(ty2 = "KeyError" ∧ msg2.data.contains '\n' = true) →
          wrapExc ty2 msg2 = PyExc.mk ty2 msg2)) :=
  ⟨⟨by decide, by decide, by decide, by decide⟩,
    worker_error_propagation (failAtEnv 1 (PyExc.mk "TypeError" "bad")) [[0], [1], [2]]
      fifoSched 1 "TypeError" "bad" (by decide) (by decide) (by decide) (by decide)⟩

/-- C10 counterexample: with one worker, a four-batch source and a schedule
delivering the second dispatched result first, the state right after the
first `next()` call has `batches_outstanding = 1`, strictly below
`2 * num_workers = 2`, while the Batch Source still holds an undispatched
batch — refuting the claimed invariant that a counter strictly below the
window (after priming) implies source exhaustion. -/
theorem end_detection_cex :
    (runState (simpleEnv 1) swapSched [[0], [1], [2], [3]] 1).batchesOutstanding <
        2 * (simpleEnv 1).numWorkers
  ∧ (runState (simpleEnv 1) swapSched [[0], [1], [2], [3]] 1).pending ≠ [] :=
  ⟨by decide, by decide⟩

/-- C10 amended: the invariant actually maintained counts the buffered early
arrivals too: whenever `send_idx - rcvd_idx` (equal to `batches_outstanding`
plus the reorder-buffer size) is strictly below `2 * num_workers`, the Batch
Source is exhausted.  Consequently, at the start of a `next()` call with
`batches_outstanding = 0` and no buffered batch at `rcvd_idx`, the source is
exhausted and everything dispatched was delivered, which is what makes
signalling end-of-sequence from `batches_outstanding == 0` alone correct. -/
theorem end_detection_sound {PyV : Type} (env : MSEnv PyV) (source : List (List Nat))
    (sched : Nat → Nat) (k : Nat) (hn : 1 ≤ env.numWorkers) :
    ((runState env sched source k : PLState PyV).sendIdx -
          (runState env sched source k).rcvdIdx < 2 * env.numWorkers →
        (runState env sched source k).pending = [])
  ∧ ((runState env sched source k).batchesOutstanding = 0 →
      dictGet (runState env sched source k).rcvdIdx
          (runState env sched source k).reorderDict = none →
      (runState env sched source k).pending = []
      ∧ (runState env sched source k).rcvdIdx = (runState env sched source k).sendIdx
      ∧ (nextFn env sched (runState env sched source k)).2 = NextOut.stopIter) := by
  rcases runState_top env source sched hn k with hInv | hDone
  · constructor
    · intro hlt
      have hsend := hInv.winEx hlt
      rw [hInv.pend, hsend]
      exact List.drop_length source
    · intro hc hdg
      have hout : (runState env sched source k).outstanding = [] := by
        have := hInv.cnt
        rw [hc] at this
        exact List.length_eq_zero.mp this.symm
      have hnotdict : (runState env sched source k).rcvdIdx ∉
          seqs (runState env sched source k).reorderDict := dictGet_none _ _ hdg
      have hsr : (runState env sched source k).sendIdx =
          (runState env sched source k).rcvdIdx := by
        by_contra hne
        have hlt : (runState env sched source k).rcvdIdx <
            (runState env sched source k).sendIdx := by
          have := hInv.le1
          omega
        have hmem : (runState env sched source k).rcvdIdx ∈
            List.range' (runState env sched source k).rcvdIdx
              ((runState env sched source k).sendIdx -
                (runState env sched source k).rcvdIdx) := by
          refine List.mem_range'_1.mpr ⟨Nat.le_refl _, ?_⟩
          omega
        have hmem2 := hInv.perm.mem_iff.mpr hmem
        rw [hout] at hmem2
        simp only [seqs, List.map_nil, List.nil_append] at hmem2
        exact hnotdict hmem2
      have hpend : (runState env sched source k).pending = [] := by
        have hsendlen : (runState env sched source k).sendIdx = source.length := by
          refine hInv.winEx ?_
          omega
        rw [hInv.pend, hsendlen]
        exact List.drop_length source
      refine ⟨hpend, hsr.symm, ?_⟩
      simp [nextFn, hdg, hc]
  · constructor
    · intro _
      exact hDone.pend
    · intro _ _
      refine ⟨hDone.pend, hDone.eqIdx, ?_⟩
      simp [nextFn, hDone.dictE, dictGet, hDone.cnt]

/-- Witness for C10 amended: one worker, four batches, out-of-order
schedule, after one consumer call. -/
theorem end_detection_sound_witness :
    1 ≤ (simpleEnv 1).numWorkers
    ∧ (((runState (simpleEnv 1) swapSched [[0], [1], [2], [3]] 1).sendIdx -
          (runState (simpleEnv 1) swapSched [[0], [1], [2], [3]] 1).rcvdIdx <
            2 * (simpleEnv 1).numWorkers →
        (runState (simpleEnv 1) swapSched [[0], [1], [2], [3]] 1).pending = [])
      ∧ ((runState (simpleEnv 1) swapSched [[0], [1], [2], [3]] 1).batchesOutstanding = 0 →
          dictGet (runState (simpleEnv 1) swapSched [[0], [1], [2], [3]] 1).rcvdIdx
              (runState (simpleEnv 1) swapSched [[0], [1], [2], [3]] 1).reorderDict = none →
          (runState (simpleEnv 1) swapSched [[0], [1], [2], [3]] 1).pending = []
          ∧ (runState (simpleEnv 1) swapSched [[0], [1], [2], [3]] 1).rcvdIdx =
              (runState (simpleEnv 1) swapSched [[0], [1], [2], [3]] 1).sendIdx
          ∧ (nextFn (simpleEnv 1) swapSched
              (runState (simpleEnv 1) swapSched [[0], [1], [2], [3]] 1)).2 =
                NextOut.stopIter)) :=
  ⟨by decide, end_detection_sound (simpleEnv 1) [[0], [1], [2], [3]] swapSched 1 (by decide)⟩

/-- Helper: the synchronous (`num_workers == 0`) consumer loop delivers the
collated batch of every index batch in order and then stops, when every
fetch succeeds. -/
theorem syncRun_spec {PyV : Type} (env : MSEnv PyV) :
    ∀ (pending : List (List Nat)) (fuel : Nat), pending.length < fuel →
      (∀ ixs ∈ pending, (env.fetchCollate 0 ixs).isOk = true) →
      syncRun env fuel pending =
        (pending.map (fun ixs => okD (env.fetchCollate 0 ixs)), RunEnd.stopped) := by
  intro pending
  induction pending with
  | nil =>
      intro fuel hf _
      rcases fuel with _ | fuel
      · omega
      · rfl
  | cons ixs rest ih =>
      intro fuel hf hok
      rcases fuel with _ | fuel
      · omega
      · have h1 : (env.fetchCollate 0 ixs).isOk = true := hok ixs (List.mem_cons_self _ _)
        rcases hfc : env.fetchCollate 0 ixs with e | b
        · rw [hfc] at h1
          simp [Except.isOk, Except.toBool] at h1
        · have h2 := ih fuel (by simpa using hf)
            (fun i hi => hok i (List.mem_cons_of_mem _ hi))
          rw [syncRun, hfc]
          dsimp only
          rw [h2]
          simp [okD, hfc]

/-- Helper: mapping a function of the indexed batch over the index interval
of a source suffix equals mapping it over the suffix itself. -/
theorem range'_map_batchAt {β : Type} (source : List (List Nat)) (f : List Nat → β) :
    ∀ (k i : Nat), source.length - i = k →
      (List.range' i k).map (fun j => f (batchAt source j)) = (source.drop i).map f := by
  intro k
  induction k with
  | zero =>
      intro i h
      rw [List.drop_eq_nil_iff.mpr (by omega)]
      simp
  | succ k ih =>
      intro i h
      have hi : i < source.length := by omega
      rw [List.range'_succ, List.drop_eq_getElem_cons hi]
      simp only [List.map_cons]
      have hb : batchAt source i = source[i] := by
        rw [batchAt, List.getElem?_eq_getElem hi]
        rfl
      rw [hb, ih (i + 1) (by omega)]

/-- C9 counterexample: with the repository's worker loop (`_ms_loop`), a
pipelined run appends the selected scale index to every delivered batch,
while the synchronous `num_workers == 0` path of `__next__` does not, so the
two configurations do not produce the same batch sequence even on a
one-batch source with a single scale. -/
theorem degenerate_mode_cex :
    consumerRun (simpleEnv 1) fifoSched 2 (primed (simpleEnv 1) [[5]]) =
      ([[5, 0]], RunEnd.stopped)
  ∧ syncRun (simpleEnv 1) 2 [[5]] = ([[5]], RunEnd.stopped)
  ∧ ([[5, 0]] : List (List Nat)) ≠ [[5]] :=
  ⟨by decide, by decide, by decide⟩

/-- C9 amended: with a single scale (or a non-training dataset) and an
all-success fetch/collate collaborator, the synchronous `num_workers == 0`
mode delivers the same batches in the same order with the same
end-of-sequence behaviour as every pipelined configuration with
`num_workers ≥ 1`, except that each pipelined batch additionally carries the
scale index `0` appended by the worker loop, which the synchronous path
omits. -/
theorem degenerate_mode_equiv {PyV : Type} (env : MSEnv PyV) (source : List (List Nat))
    (sched : Nat → Nat) (hn : 1 ≤ env.numWorkers)
    (hscale : env.scaleLen ≤ 1 ∨ env.train = false)
    (hsucc : ∀ j, j < source.length → (resultAt env source j).isData = true) :
    consumerRun env sched (source.length + 1) (primed env source) =
      (((syncRun env (source.length + 1) source).1).map (fun b => b ++ [env.pyInt 0]),
        (syncRun env (source.length + 1) source).2) := by
  have hscale0 : ∀ j, idxScaleFor env j = 0 := by
    intro j
    rw [idxScaleFor, if_neg]
    rcases hscale with h | h
    · intro hcontra
      omega
    · intro hcontra
      rw [h] at hcontra
      exact absurd hcontra.2 (by simp)
  have hok : ∀ ixs ∈ source, (env.fetchCollate 0 ixs).isOk = true := by
    intro ixs hmem
    obtain ⟨j, hj⟩ := List.mem_iff_getElem?.mp hmem
    have hjl : j < source.length := by
      by_contra hcontra
      rw [List.getElem?_eq_none (by omega)] at hj
      exact absurd hj (by simp)
    have hs := hsucc j hjl
    rw [resultAt, batchAt, hj, Option.getD_some] at hs
    rw [msProcessItem, hscale0 j] at hs
    rcases hfc : env.fetchCollate 0 ixs with e | b
    · rw [hfc] at hs
      exact absurd hs (by simp [MSResult.isData])
    · rfl
  have hsync := syncRun_spec env source (source.length + 1) (by omega) hok
  have hrun := consumerRun_all_success env source sched hn hsucc
  rw [hrun, hsync]
  have hpay : ∀ j ∈ List.range source.length,
      (resultAt env source j).payload = okD (env.fetchCollate 0 (batchAt source j))
        ++ [env.pyInt 0] := by
    intro j hj
    have hjl : j < source.length := List.mem_range.mp hj
    have hs := hsucc j hjl
    rw [resultAt, msProcessItem, hscale0 j] at hs ⊢
    rcases hfc : env.fetchCollate 0 (batchAt source j) with e | b
    · rw [hfc] at hs
      exact absurd hs (by simp [MSResult.isData])
    · rfl
  rw [List.map_congr_left hpay]
  have hbridge := range'_map_batchAt source
    (fun ixs => okD (env.fetchCollate 0 ixs) ++ [env.pyInt 0]) source.length 0 (by omega)
  rw [List.range_eq_range', hbridge, List.drop_zero, List.map_map]
  rfl

/-- Witness for C9 amended: one worker, two batches, out-of-order
schedule. -/
theorem degenerate_mode_equiv_witness :
    (1 ≤ (simpleEnv 1).numWorkers
      ∧ ((simpleEnv 1).scaleLen ≤ 1 ∨ (simpleEnv 1).train = false)
      ∧ (∀ j, j < ([[7], [8]] : List (List Nat)).length →
          (resultAt (simpleEnv 1) [[7], [8]] j).isData = true))
    ∧ consumerRun (simpleEnv 1) swapSched (([[7], [8]] : List (List Nat)).length + 1)
        (primed (simpleEnv 1) [[7], [8]]) =
      (((syncRun (simpleEnv 1) (([[7], [8]] : List (List Nat)).length + 1) [[7], [8]]).1).map
          (fun b => b ++ [(simpleEnv 1).pyInt 0]),
        (syncRun (simpleEnv 1) (([[7], [8]] : List (List Nat)).length + 1) [[7], [8]]).2) :=
  ⟨⟨by decide, Or.inl (by decide), by decide⟩,
    degenerate_mode_equiv (simpleEnv 1) [[7], [8]] swapSched (by decide)
      (Or.inl (by decide)) (by decide)⟩

end DataLoader
